import Mathlib

/-!
Shallow embedding of the ESON parser (crates/parser) for specification checking.

Inputs are `List Char`. A parser returns a `PRes`:
  * `ok rest val` — success, mirroring nom's `Ok((remaining, value))`;
  * `err`         — recoverable failure, nom's `Err(Error)` (alternation backtracks);
  * `cutErr`      — committed failure, nom's `Err(Failure)` produced by `cut`
                    (alternation does not backtrack past it);
  * `crash`       — a Rust panic / process abort (`unwrap`, `expect`, `panic!`,
                    `unreachable!`); it propagates through every combinator.

Machine integers are modelled as `Int`/`Nat` with the source's explicit range
checks (`i64::from_str_radix` / `str::parse::<i64>` fail above `i64::MAX`, and
the source turns that failure into a panic via `.expect("TODO")`).  `f64` values
are modelled by `F64`: either an exact rational (the mathematical value denoted
by the decimal literal; IEEE round-to-nearest is abstracted away — no claim in
scope depends on rounding), or one of the non-finite values produced by the
`Infinity` / `-Infinity` / `NaN` branches.
-/

/-- Result of running a parser, see the module comment. -/
inductive PRes (α : Type) : Type where
  | ok (rest : List Char) (val : α)
  | err
  | cutErr
  | crash
deriving Repr

/-- A parser over character lists (nom's `Fn(&str) -> IResult<&str, α>`). -/
abbrev P (α : Type) : Type := List Char → PRes α

/-- Model of an `f64` payload: exact rational for finite values (IEEE rounding
abstracted), plus the three non-finite values the numeric scanner can emit. -/
inductive F64 : Type where
  | finite (q : ℚ)
  | inf
  | negInf
  | nan
deriving DecidableEq, Repr

/-- `RefIndex` from expr_token.rs: one path segment of a reference. -/
inductive RefIndex : Type where
  | int (i : Int)
  | str (s : List Char)
deriving DecidableEq, Repr

/-- `RefPronoun` from expr_token.rs: `self`, `super` or `$` with a path. -/
inductive RefPronoun : Type where
  | curr (elems : List RefIndex)
  | sup (elems : List RefIndex)
  | root (elems : List RefIndex)
deriving DecidableEq, Repr

mutual
/-- `EsonLiteralSegment` from lib.rs.  `Dict` (a `HashMap<Key, _>`) is modelled
as an insertion-ordered association list built with HashMap-insert semantics
(see `hashMapFromList`). -/
inductive EsonLit : Type where
  | null
  | str (s : List Char)
  | boolean (b : Bool)
  | int (i : Int)
  | float (x : F64)
  | list (xs : List EsonLit)
  | dict (entries : List (EKey × EsonLit))

/-- `Key` from dict.rs: a name plus an optional annotation list (field
`annotation` in the source, named `annos` here). -/
inductive EKey : Type where
  | mk (name : List Char) (annos : Option (List Anno))

/-- `Annotation` from annotation.rs. -/
inductive Anno : Type where
  | mk (name : List Char) (value : Option (List EsonLit))
end

/-- The `name` field of `Key`. -/
def EKey.name : EKey → List Char
  | .mk n _ => n

/-- The `annotation` field of `Key`. -/
def EKey.annos : EKey → Option (List Anno)
  | .mk _ a => a

mutual
/-- `EsonSegment` from lib.rs (the "live" value type). -/
inductive Eson : Type where
  | null
  | str (s : List Char)
  | boolean (b : Bool)
  | int (i : Int)
  | float (x : F64)
  | list (xs : List Eson)
  | dict (entries : List (EKey × Eson))
  | expr (chunk : List ExprToken)

/-- `ExprToken` from expr_token.rs.  `ExprTokenChunk` is a plain
`List ExprToken` (the source's newtype around `Vec<ExprToken>`). -/
inductive ExprToken : Type where
  | noneTok
  | group (chunk : List ExprToken)
  | val (v : Eson)
  | fnCall (name : List Char) (args : List (List ExprToken))
  | var (name : List Char)
  | ref (p : RefPronoun)
  | pipe
  | q
  | colon
  | eq
  | ne
  | le
  | ge
  | and
  | or
  | not
  | gt
  | lt
  | plus
  | minus
  | mul
  | div
  | mod
  | eoi
end

/-- `ExprChunk` from expr.rs: the parsed expression tree. -/
inductive ExprChunk : Type where
  | primary (t : ExprToken)
  | prefixOp (t : ExprToken) (c : ExprChunk)
  | infixOp (t : ExprToken) (l : ExprChunk) (r : ExprChunk)
  | postfixOp (t : ExprToken) (c : ExprChunk)

/-! ### Parser combinators (the nom subset the source uses) -/

/-- nom `map`. -/
def pmap {α β : Type} (f : α → β) (p : P α) : P β := fun input =>
  match p input with
  | .ok rest v => .ok rest (f v)
  | .err => .err
  | .cutErr => .cutErr
  | .crash => .crash

/-- Monadic sequencing used to express nom's tuple/sequence combinators. -/
def bindP {α β : Type} (p : P α) (f : α → P β) : P β := fun input =>
  match p input with
  | .ok rest v => f v rest
  | .err => .err
  | .cutErr => .cutErr
  | .crash => .crash

/-- nom `alt` between two branches: the second runs only on a recoverable
failure of the first (`Failure` and panics propagate). -/
def altP {α : Type} (p q : P α) : P α := fun input =>
  match p input with
  | .err => q input
  | r => r

/-- nom `alt` over a list of branches. -/
def altListP {α : Type} : List (P α) → P α
  | [] => fun _ => .err
  | p :: ps => altP p (altListP ps)

/-- nom `tag`: match a literal, returning the matched characters. -/
def tagP (t : List Char) : P (List Char) := fun input =>
  if t.isPrefixOf input then .ok (input.drop t.length) t else .err

/-- nom `char`. -/
def chP (c : Char) : P Char := fun input =>
  match input with
  | [] => .err
  | x :: rest => if x = c then .ok rest c else .err

/-- nom `take_while`: never fails. -/
def takeWhileP (f : Char → Bool) : P (List Char) := fun input =>
  .ok (input.dropWhile f) (input.takeWhile f)

/-- nom `take_while1`. -/
def takeWhile1P (f : Char → Bool) : P (List Char) := fun input =>
  match input with
  | [] => .err
  | c :: rest =>
    if f c then .ok ((c :: rest).dropWhile f) ((c :: rest).takeWhile f) else .err

/-- nom `take_while_m_n`: between `m` and `n` matching characters, greedy. -/
def takeWhileMNP (m n : Nat) (f : Char → Bool) : P (List Char) := fun input =>
  let run := (input.takeWhile f).take n
  if m ≤ run.length then .ok (input.drop run.length) run else .err

/-- nom `take(1u8)`. -/
def take1P : P (List Char) := fun input =>
  match input with
  | [] => .err
  | c :: rest => .ok rest [c]

/-- nom `take_until(t)` for a single-character pattern, then the pattern is
still in the remaining input (errors when the pattern never occurs). -/
def takeUntilChP (c : Char) : P (List Char) := fun input =>
  let pre := input.takeWhile (fun x => !(x = c))
  if pre.length = input.length then .err else .ok (input.drop pre.length) pre

/-- nom `opt`: recoverable failure becomes `none`; `Failure`/panic propagate. -/
def optP {α : Type} (p : P α) : P (Option α) := fun input =>
  match p input with
  | .ok rest v => .ok rest (some v)
  | .err => .ok input Option.none
  | .cutErr => .cutErr
  | .crash => .crash

/-- nom `preceded`. -/
def precededP {α β : Type} (p : P α) (q : P β) : P β :=
  bindP p (fun _ => q)

/-- nom `terminated`. -/
def terminatedP {α β : Type} (p : P α) (q : P β) : P α :=
  bindP p (fun v => pmap (fun _ => v) q)

/-- nom `delimited`. -/
def delimitedP {α β γ : Type} (l : P α) (p : P β) (r : P γ) : P β :=
  precededP l (terminatedP p r)

/-- nom `pair`. -/
def pairP {α β : Type} (p : P α) (q : P β) : P (α × β) :=
  bindP p (fun a => pmap (fun b => (a, b)) q)

/-- nom `separated_pair`. -/
def sepPairP {α β γ : Type} (p : P α) (s : P β) (q : P γ) : P (α × γ) :=
  pairP p (precededP s q)

/-- nom `value`. -/
def valueP {α β : Type} (v : α) (p : P β) : P α := pmap (fun _ => v) p

/-- nom `verify`. -/
def verifyP {α : Type} (p : P α) (f : α → Bool) : P α := fun input =>
  match p input with
  | .ok rest v => if f v then .ok rest v else .err
  | e => e

/-- nom `cut`: turn a recoverable failure into a committed one. -/
def cutP {α : Type} (p : P α) : P α := fun input =>
  match p input with
  | .err => .cutErr
  | r => r

/-- Worker for nom `many0`: iterates while the inner parser succeeds AND
consumes input (nom errors out on a zero-length match to prevent loops).
The fuel (`input.length + 1` at the top call) can therefore never run out. -/
def many0Go {α : Type} (p : P α) : Nat → List Char → PRes (List α)
  | 0, _ => .err
  | f + 1, input =>
    match p input with
    | .err => .ok input []
    | .cutErr => .cutErr
    | .crash => .crash
    | .ok rest v =>
      if rest.length < input.length then
        match many0Go p f rest with
        | .ok r vs => .ok r (v :: vs)
        | .err => .err
        | .cutErr => .cutErr
        | .crash => .crash
      else .err

/-- nom `many0` (also the engine of `fold_many0`, which is `many0` + a fold). -/
def many0P {α : Type} (p : P α) : P (List α) := fun input =>
  many0Go p (input.length + 1) input

/-- nom `many1`. -/
def many1P {α : Type} (p : P α) : P (List α) := fun input =>
  match p input with
  | .err => .err
  | .cutErr => .cutErr
  | .crash => .crash
  | .ok rest v =>
    match many0Go p (rest.length + 1) rest with
    | .ok r vs => .ok r (v :: vs)
    | .err => .err
    | .cutErr => .cutErr
    | .crash => .crash

/-- Worker for nom `separated_list0`: elements after the first; a failing
element after a matched separator rewinds to before the separator. -/
def sepList0Go {α β : Type} (s : P β) (p : P α) : Nat → List Char → PRes (List α)
  | 0, _ => .err
  | f + 1, input =>
    match s input with
    | .err => .ok input []
    | .cutErr => .cutErr
    | .crash => .crash
    | .ok rest1 _ =>
      match p rest1 with
      | .err => .ok input []
      | .cutErr => .cutErr
      | .crash => .crash
      | .ok rest2 v =>
        if rest2.length < input.length then
          match sepList0Go s p f rest2 with
          | .ok r vs => .ok r (v :: vs)
          | .err => .err
          | .cutErr => .cutErr
          | .crash => .crash
        else .err

/-- nom `separated_list0`. -/
def sepList0P {α β : Type} (s : P β) (p : P α) : P (List α) := fun input =>
  match p input with
  | .err => .ok input []
  | .cutErr => .cutErr
  | .crash => .crash
  | .ok rest v =>
    match sepList0Go s p (rest.length + 1) rest with
    | .ok r vs => .ok r (v :: vs)
    | .err => .err
    | .cutErr => .cutErr
    | .crash => .crash

/-- nom `count`: apply a parser exactly `n` times. -/
def countP {α : Type} (p : P α) : Nat → P (List α)
  | 0 => fun input => .ok input []
  | n + 1 => fun input =>
    match p input with
    | .ok rest v =>
      match countP p n rest with
      | .ok r vs => .ok r (v :: vs)
      | .err => .err
      | .cutErr => .cutErr
      | .crash => .crash
    | .err => .err
    | .cutErr => .cutErr
    | .crash => .crash

/-- nom `many_till(take(1u8), close)`: characters one at a time until `close`
matches (structural recursion on the input, no fuel needed). -/
def manyTillTake1P {α : Type} (close : P α) : List Char → PRes (List Char × α)
  | [] =>
    match close [] with
    | .ok rest v => .ok rest ([], v)
    | .err => .err
    | .cutErr => .cutErr
    | .crash => .crash
  | c :: rest =>
    match close (c :: rest) with
    | .ok r v => .ok r ([], v)
    | .cutErr => .cutErr
    | .crash => .crash
    | .err =>
      match manyTillTake1P close rest with
      | .ok r (cs, v) => .ok r (c :: cs, v)
      | .err => .err
      | .cutErr => .cutErr
      | .crash => .crash

/-! ### Character classes and digit values -/

/-- The whitespace set of nom's `multispace0`/`multispace1` (also the `sp`
helper in comments.rs, whose set " \t\r\n" is the same). -/
def isSpaceC (c : Char) : Bool :=
  c = ' ' || c = '\t' || c = '\n' || c = '\r'

/-- nom `multispace0`. -/
def multispace0P : P (List Char) := takeWhileP isSpaceC

/-- nom `multispace1`. -/
def multispace1P : P (List Char) := takeWhile1P isSpaceC

/-- nom `digit1`: one or more ASCII digits. -/
def digit1P : P (List Char) := takeWhile1P Char.isDigit

/-- `char::is_digit(16)` / `is_ascii_hexdigit`. -/
def isHexC (c : Char) : Bool :=
  c.isDigit || ('a' ≤ c && c ≤ 'f') || ('A' ≤ c && c ≤ 'F')

/-- `char::is_digit(8)`. -/
def isOctC (c : Char) : Bool := '0' ≤ c && c ≤ '7'

/-- `char::is_digit(2)`. -/
def isBinC (c : Char) : Bool := c = '0' || c = '1'

/-- Numeric value of one (hex) digit character. -/
def digitVal (c : Char) : Nat :=
  if c.isDigit then c.toNat - '0'.toNat
  else if 'a' ≤ c && c ≤ 'f' then c.toNat - 'a'.toNat + 10
  else if 'A' ≤ c && c ≤ 'F' then c.toNat - 'A'.toNat + 10
  else 0

/-- Value of a digit string in a given radix (`from_str_radix` without the
range check; the callers add the `i64`/`u32` range behavior themselves). -/
def digitsVal (radix : Nat) (ds : List Char) : Nat :=
  ds.foldl (fun acc c => acc * radix + digitVal c) 0

/-- `i64::MAX`; a positive decimal/radix literal above it makes
`from_str_radix`/`parse::<i64>` return `Err`. -/
def I64MAX : Nat := 9223372036854775807

/-! ### Whitespace / comment skipper (comments.rs, lib.rs `sp`) -/

/-- The local `sp` of comments.rs: `take_while` over " \t\r\n". -/
def commentSpP : P (List Char) := takeWhileP isSpaceC

/-- `comment` from comments.rs: `//` to end of line, newline consumed. -/
def commentP : P (List Char) :=
  bindP (precededP multispace0P (tagP "//".toList)) fun _ =>
    precededP commentSpP (terminatedP (takeUntilChP '\n') (chP '\n'))

/-- `sp` from lib.rs: `map(many0(alt((multispace1, comment))), |_v| "")`. -/
def spP : P (List Char) :=
  pmap (fun _ => ([] : List Char)) (many0P (altP multispace1P commentP))

/-! ### Identifiers (expr.rs `legal_id`) -/

/-- First character of `legal_id`: underscore or ASCII letter (the source's
`one_of("_abc…XYZ")`). -/
def isIdStartC (c : Char) : Bool :=
  c = '_' || ('a' ≤ c && c ≤ 'z') || ('A' ≤ c && c ≤ 'Z')

/-- Subsequent characters of `legal_id`: also ASCII digits. -/
def isIdC (c : Char) : Bool := isIdStartC c || c.isDigit

/-- `legal_id` from expr.rs: `recognize(pair(one_of(start), many0(one_of(cont))))`;
`many0(one_of s)` consumes exactly the longest run, i.e. a `takeWhile`. -/
def legalIdP : P (List Char) := fun input =>
  match input with
  | [] => .err
  | c :: rest =>
    if isIdStartC c then .ok (rest.dropWhile isIdC) (c :: rest.takeWhile isIdC)
    else .err

/-! ### Booleans and null (boolean.rs, null.rs) -/

/-- `parse_boolean` from boolean.rs. -/
def parseBooleanP : P Eson :=
  altP (valueP (Eson.boolean true) (tagP "true".toList))
       (valueP (Eson.boolean false) (tagP "false".toList))

/-- `parse_literal_boolean` from boolean.rs. -/
def parseLitBooleanP : P EsonLit :=
  altP (valueP (EsonLit.boolean true) (tagP "true".toList))
       (valueP (EsonLit.boolean false) (tagP "false".toList))

/-- `parse_null` from null.rs. -/
def parseNullP : P Eson := valueP Eson.null (tagP "null".toList)

/-- `parse_literal_null` from null.rs. -/
def parseLitNullP : P EsonLit := valueP EsonLit.null (tagP "null".toList)

/-! ### Numeric scanner (numeric.rs) -/

/-- `parse_bin` / `parse_oct` / `parse_hex`: radix prefix then digit run. -/
def radixDigitsP (pre : List Char) (isD : Char → Bool) : P (List Char) :=
  precededP (tagP pre) (takeWhile1P isD)

/-- One radix branch of `parse_numeric`:
`map(parse_xxx, |s| EsonSegment::Int(i64::from_str_radix(s, r).expect("TODO")))`.
`from_str_radix` returns `Err` above `i64::MAX` and `.expect` turns that
into a panic (`crash`). -/
def radixIntP (pre : List Char) (isD : Char → Bool) (radix : Nat) : P Eson := fun input =>
  match radixDigitsP pre isD input with
  | .ok rest ds =>
    let v := digitsVal radix ds
    if v ≤ I64MAX then .ok rest (.int v) else .crash
  | .err => .err
  | .cutErr => .cutErr
  | .crash => .crash

/-- `tag_no_case("e")`. -/
def tagNoCaseEP : P (List Char) := altP (tagP "e".toList) (tagP "E".toList)

/-- Exact rational value of the decimal literal rebuilt by `parse_numeric`'s
`format!("{}{}{}", …)` (integer digits, optional fraction digits, optional
signed exponent) and then parsed with `f64::from_str`; IEEE rounding is
abstracted to the exact value. -/
def decToRat (intds : List Char) (fracds : Option (List Char))
    (expPart : Option (Option Char × List Char)) : ℚ :=
  let base : ℚ := (digitsVal 10 intds : ℚ) +
    (match fracds with
     | Option.none => 0
     | some fs => (digitsVal 10 fs : ℚ) / (10 : ℚ) ^ fs.length)
  let e : ℤ :=
    match expPart with
    | Option.none => 0
    | some (sgn, es) =>
      if sgn = some '-' then -(digitsVal 10 es : ℤ) else (digitsVal 10 es : ℤ)
  base * (10 : ℚ) ^ e

/-- The decimal branch of `parse_numeric`: `digit1`, optional `.` + `digit1`,
optional `e`/`E` + optional sign + `digit1`.  With neither fraction nor
exponent the digits are parsed as `i64` (`Err` above `i64::MAX`, turned into a
panic by `.expect("TODO")`); otherwise the three parts are rebuilt into a
string and parsed as `f64` (which never fails on this shape — overflow gives
an infinity; abstracted to the exact rational). -/
def decimalNumP : P Eson :=
  bindP digit1P fun intds =>
  bindP (optP (precededP (chP '.') digit1P)) fun fracds =>
  bindP (optP (precededP tagNoCaseEP
    (pairP (optP (altP (chP '+') (chP '-'))) digit1P))) fun expPart =>
  fun rest =>
    match fracds, expPart with
    | Option.none, Option.none =>
      let v := digitsVal 10 intds
      if v ≤ I64MAX then .ok rest (.int v) else .crash
    | _, _ => .ok rest (.float (F64.finite (decToRat intds fracds expPart)))

/-- `parse_numeric` from numeric.rs: the `alt` over binary, octal, hex,
decimal, `Infinity`, `-Infinity`, `NaN`, in the source's order. -/
def parseNumericP : P Eson :=
  altListP
    [ radixIntP ['0', 'b'] isBinC 2
    , radixIntP ['0', 'o'] isOctC 8
    , radixIntP ['0', 'x'] isHexC 16
    , decimalNumP
    , valueP (Eson.float F64.inf) (tagP "Infinity".toList)
    , valueP (Eson.float F64.negInf) (tagP "-Infinity".toList)
    , valueP (Eson.float F64.nan) (tagP "NaN".toList) ]

/-- `parse_literal_number` from numeric.rs: run `parse_numeric`, re-wrap the
`Int`/`Float` payloads; any other variant hits `unreachable!()`. -/
def parseLitNumberP : P EsonLit := fun input =>
  match parseNumericP input with
  | .ok r (.int i) => .ok r (.int i)
  | .ok r (.float x) => .ok r (.float x)
  | .ok _ _ => .crash
  | .err => .err
  | .cutErr => .cutErr
  | .crash => .crash

/-! ### String engine (string.rs) -/

/-- `char::from_u32`: `None` on surrogates (D800–DFFF) and above 10FFFF. -/
def charFromU32 (v : Nat) : Option Char :=
  if v < 0xD800 ∨ (0xDFFF < v ∧ v < 0x110000) then some (Char.ofNat v)
  else Option.none

/-- `parse_unicode` from string.rs: `u` + (`{` 1–6 hex `}` | exactly 4 hex),
hex → `u32` (at most 6 hex digits, so `u32::from_str_radix` cannot fail),
then `map_opt(…, char::from_u32)` — invalid scalar values are a recoverable
parse failure. -/
def parseUnicodeP : P Char := fun input =>
  match (precededP (chP 'u')
          (altP (delimitedP (chP '\x7b') (takeWhileMNP 1 6 isHexC) (chP '\x7d'))
                (takeWhileMNP 4 4 isHexC))) input with
  | .ok rest hx =>
    match charFromU32 (digitsVal 16 hx) with
    | some c => .ok rest c
    | Option.none => .err
  | .err => .err
  | .cutErr => .cutErr
  | .crash => .crash

/-- `parse_escaped_char` from string.rs. -/
def escapedCharP : P Char :=
  precededP (chP '\\')
    (altListP
      [ parseUnicodeP
      , valueP '\n' (chP 'n')
      , valueP '\r' (chP 'r')
      , valueP '\t' (chP 't')
      , valueP '\x08' (chP 'b')
      , valueP '\x0C' (chP 'f')
      , valueP '\\' (chP '\\')
      , valueP '/' (chP '/')
      , valueP '"' (chP '"') ])

/-- `parse_escaped_whitespace` from string.rs. -/
def escapedWsP : P (List Char) := precededP (chP '\\') multispace1P

/-- `StringFragment` from string.rs. -/
inductive SFrag : Type where
  | lit (s : List Char)
  | esc (c : Char)
  | escWs
  | valS (s : List Char)
deriving DecidableEq, Repr

/-- The fragment parser of `parse_normal_string`:
`alt((map(verify(is_not "\\\"", nonempty), Literal), map(escaped_char, EscapedChar), value(EscapedWS, escaped_ws)))`
(`is_not` already requires at least one character). -/
def normalFragP : P SFrag :=
  altListP
    [ pmap SFrag.lit (takeWhile1P (fun c => !(c = '\\' || c = '"')))
    , pmap SFrag.esc escapedCharP
    , valueP SFrag.escWs escapedWsP ]

/-- The folding function of `parse_normal_string` (Literal and EscapedChar
are appended, everything else is dropped). -/
def normalJoin (fs : List SFrag) : List Char :=
  fs.foldl (fun acc f =>
    match f with
    | .lit s => acc ++ s
    | .esc c => acc ++ [c]
    | _ => acc) []

/-- `parse_normal_string` from string.rs (`fold_many0` = `many0` + fold). -/
def parseNormalStringP : P (List Char) := pmap normalJoin (many0P normalFragP)

/-- The closing fence of a raw string: `pair(tag("\""), count(tag("#"), n))`. -/
def closeFenceP (n : Nat) : P Unit :=
  pmap (fun _ => ()) (pairP (tagP ['"']) (countP (tagP ['#']) n))

/-- `parse_raw_str` from string.rs: count leading `#` (`fold_many0(tag("#"))`),
match `"`, scan with `many_till(take(1), closing)`, and return the slice
`&input[hash_count+1 .. hash_count+1+inner.len()]`. -/
def parseRawStrP : P (List Char) := fun input =>
  let n := (input.takeWhile (fun c => c = '#')).length
  match tagP ['"'] (input.drop n) with
  | .ok r2 _ =>
    match manyTillTake1P (closeFenceP n) r2 with
    | .ok rest (inner, _) => .ok rest ((input.drop (n + 1)).take inner.length)
    | .err => .err
    | .cutErr => .cutErr
    | .crash => .crash
  | .err => .err
  | .cutErr => .cutErr
  | .crash => .crash

/-- `parse_literal_string` from string.rs: escaped-quoted or raw form only. -/
def parseLitStringP : P (List Char) :=
  altP (delimitedP (chP '"') parseNormalStringP (chP '"'))
       (precededP (chP 'r') parseRawStrP)

/-! ### Display / Debug rendering used by format-string splices

`parse_format_string` replaces each splice by `expr.to_string()`, the
`Display` of `ExprTokenChunk`: the concatenation of each token's `Display`.
The `Val`, `FnCall` and `Ref` arms interpolate `{:?}` (derived `Debug`)
renderings of their payloads; those are reproduced below structurally
(variant name + parenthesized fields, strings quoted).  Two leaf cases have
no exact counterpart in the model and are rendered canonically: `f64` Debug
formatting (the model prints `num/den` of the exact rational) and `HashMap`
Debug iteration order (the model prints insertion order). -/

/-- Decimal digits of a natural number. -/
def natDebug (n : Nat) : List Char := Nat.toDigits 10 n

/-- Debug rendering of an `Int`. -/
def intDebug (i : Int) : List Char :=
  if i < 0 then '-' :: natDebug i.natAbs else natDebug i.natAbs

/-- Debug rendering of the `f64` model (see the section comment). -/
def f64Debug : F64 → List Char
  | .finite x => intDebug x.num ++ '/' :: natDebug x.den
  | .inf => "inf".toList
  | .negInf => "-inf".toList
  | .nan => "NaN".toList

/-- Debug rendering of a Rust `String` (quotes; escapes not re-encoded). -/
def strDebug (s : List Char) : List Char := '"' :: s ++ ['"']

/-- Comma-space join, as produced by Rust's sequence Debug impls. -/
def joinSep : List (List Char) → List Char
  | [] => []
  | [x] => x
  | x :: y :: xs => x ++ ", ".toList ++ joinSep (y :: xs)

/-- Debug rendering of one `RefIndex`. -/
def refIndexDebug : RefIndex → List Char
  | .int i => "Int(".toList ++ intDebug i ++ [')']
  | .str s => "Str(".toList ++ strDebug s ++ [')']

/-- Debug rendering of a `Vec<RefIndex>`. -/
def refIndexListDebug (es : List RefIndex) : List Char :=
  '[' :: (joinSep (es.map refIndexDebug) ++ [']'])

/-- Debug rendering of `RefPronoun` contents as used by `ExprToken`'s
`Display` (`Ref(Curr({:?}))` etc. on the element vector). -/
def refDisplay : RefPronoun → List Char
  | .curr es => "Ref(Curr(".toList ++ refIndexListDebug es ++ "))".toList
  | .sup es => "Ref(Super(".toList ++ refIndexListDebug es ++ "))".toList
  | .root es => "Ref(Root(".toList ++ refIndexListDebug es ++ "))".toList

/-- Derived-`Debug` rendering of a dictionary `Key`. -/
def keyDebug (k : EKey) : List Char :=
  "Key \x7b name: ".toList ++ strDebug k.name ++ " \x7d".toList

mutual
/-- Derived-`Debug` rendering of `EsonSegment`. -/
def esonDebug : Eson → List Char
  | .null => "Null".toList
  | .str s => "Str(".toList ++ strDebug s ++ [')']
  | .boolean b => "Boolean(".toList ++ (if b then "true".toList else "false".toList) ++ [')']
  | .int i => "Int(".toList ++ intDebug i ++ [')']
  | .float x => "Float(".toList ++ f64Debug x ++ [')']
  | .list xs => "List([".toList ++ esonListDebug xs ++ "])".toList
  | .dict es => "Dict(\x7b".toList ++ esonDictDebug es ++ "\x7d)".toList
  | .expr ts => "Expr(ExprTokenChunk([".toList ++ tokListDebug ts ++ "]))".toList

/-- Debug of a `Vec<EsonSegment>` body (comma-space separated). -/
def esonListDebug : List Eson → List Char
  | [] => []
  | [x] => esonDebug x
  | x :: y :: xs => esonDebug x ++ ", ".toList ++ esonListDebug (y :: xs)

/-- Debug of a `HashMap<Key, EsonSegment>` body (insertion order). -/
def esonDictDebug : List (EKey × Eson) → List Char
  | [] => []
  | [(k, v)] => keyDebug k ++ ": ".toList ++ esonDebug v
  | (k, v) :: e :: es =>
    keyDebug k ++ ": ".toList ++ esonDebug v ++ ", ".toList ++ esonDictDebug (e :: es)

/-- Derived-`Debug` rendering of `ExprToken`. -/
def tokDebug : ExprToken → List Char
  | .val v => "Val(".toList ++ esonDebug v ++ [')']
  | .group ts => "Group(ExprTokenChunk([".toList ++ tokListDebug ts ++ "]))".toList
  | .fnCall id args => "FnCall(".toList ++ strDebug id ++ ", [".toList ++ chunkVecDebug args ++ "])".toList
  | .var id => "Var(".toList ++ strDebug id ++ [')']
  | .ref p => "Ref(".toList ++ refDisplay p ++ [')']
  | .noneTok => "None".toList
  | .pipe => "Pipe".toList
  | .q => "Q".toList
  | .colon => "COLON".toList
  | .eq => "Eq".toList
  | .ne => "Ne".toList
  | .le => "Le".toList
  | .ge => "Ge".toList
  | .and => "And".toList
  | .or => "Or".toList
  | .not => "Not".toList
  | .gt => "Gt".toList
  | .lt => "Lt".toList
  | .plus => "Plus".toList
  | .minus => "Minus".toList
  | .mul => "Mul".toList
  | .div => "Div".toList
  | .mod => "Mod".toList
  | .eoi => "Eoi".toList

/-- Debug of a `Vec<ExprToken>` body. -/
def tokListDebug : List ExprToken → List Char
  | [] => []
  | [t] => tokDebug t
  | t :: u :: ts => tokDebug t ++ ", ".toList ++ tokListDebug (u :: ts)

/-- Debug of a `Vec<ExprTokenChunk>` body. -/
def chunkVecDebug : List (List ExprToken) → List Char
  | [] => []
  | [ts] => "ExprTokenChunk([".toList ++ tokListDebug ts ++ "])".toList
  | ts :: us :: rest =>
    "ExprTokenChunk([".toList ++ tokListDebug ts ++ "])".toList ++ ", ".toList ++ chunkVecDebug (us :: rest)
end

/-- `Display` of one `ExprToken` (expr_token.rs `impl Display for ExprToken`). -/
def renderToken : ExprToken → List Char
  | .noneTok => "None".toList
  | .group _ => "Group".toList
  | .val v => "Val(".toList ++ esonDebug v ++ [')']
  | .fnCall id args => "FnCall(".toList ++ id ++ ", [".toList ++ chunkVecDebug args ++ "])".toList
  | .var id => "Var(".toList ++ id ++ [')']
  | .ref p => refDisplay p
  | .pipe => "Pipe".toList
  | .q => "Q".toList
  | .colon => "COLON".toList
  | .eq => "Eq".toList
  | .ne => "Ne".toList
  | .le => "Le".toList
  | .ge => "Ge".toList
  | .and => "And".toList
  | .or => "Or".toList
  | .not => "Not".toList
  | .gt => "Gt".toList
  | .lt => "Lt".toList
  | .plus => "Plus".toList
  | .minus => "Minus".toList
  | .mul => "Mul".toList
  | .div => "Div".toList
  | .mod => "Mod".toList
  | .eoi => "Eoi".toList

/-- `Display` of an `ExprTokenChunk` (expr_token.rs): the concatenation of
each token's `Display` rendering. -/
def renderChunk : List ExprToken → List Char
  | [] => []
  | t :: ts => renderToken t ++ renderChunk ts

/-! ### Expression tokenizer, non-recursive parts (expr_token.rs) -/

/-- `var` from expr_token.rs. -/
def varP : P ExprToken :=
  pmap (fun id => ExprToken.var id) (delimitedP multispace0P legalIdP multispace0P)

/-- The `ref_head` alternative of `reference`. -/
def refHeadP : P RefPronoun :=
  altListP
    [ valueP (RefPronoun.curr []) (tagP "self".toList)
    , valueP (RefPronoun.sup []) (tagP "super".toList)
    , valueP (RefPronoun.root []) (tagP "$".toList) ]

/-- The `ref_element` alternative of `reference`: `.ident`, `["string"]` or
`[digits]` (digits parsed as `i16` by `map_res`, whose overflow is a
recoverable failure). -/
def refElementP : P RefIndex :=
  altListP
    [ pmap RefIndex.str
        (delimitedP (delimitedP multispace0P (tagP ".".toList) multispace0P)
          legalIdP multispace0P)
    , pmap RefIndex.str
        (delimitedP (delimitedP multispace0P (tagP "[".toList) multispace0P)
          parseLitStringP
          (delimitedP multispace0P (tagP "]".toList) multispace0P))
    , (fun input =>
        match (delimitedP (delimitedP multispace0P (tagP "[".toList) multispace0P)
                digit1P
                (delimitedP multispace0P (tagP "]".toList) multispace0P)) input with
        | .ok rest ds =>
          let v := digitsVal 10 ds
          if v ≤ 32767 then .ok rest (RefIndex.int v) else .err
        | .err => .err
        | .cutErr => .cutErr
        | .crash => .crash) ]

/-- `reference` from expr_token.rs. -/
def referenceP : P ExprToken :=
  pmap
    (fun (head, elems) =>
      match head with
      | RefPronoun.curr _ => ExprToken.ref (RefPronoun.curr elems)
      | RefPronoun.sup _ => ExprToken.ref (RefPronoun.sup elems)
      | RefPronoun.root _ => ExprToken.ref (RefPronoun.root elems))
    (pairP refHeadP (many0P (delimitedP multispace0P refElementP multispace0P)))

/-- The operator symbols tried by `operator`, in the source's order (note the
trailing `^` and the duplicated `-`). -/
def opTags : List (List Char) :=
  [ "==".toList, "!=".toList, "<=".toList, ">=".toList, "&&".toList, "||".toList
  , "!".toList, ">".toList, "<".toList, "+".toList, "-".toList, "*".toList
  , "/".toList, "%".toList, "^".toList, "-".toList ]

/-- `operator` from expr_token.rs: match one of `opTags` (each wrapped in
`delimited(multispace0, tag, multispace0)`), then decode the matched text.
The decoding `match` has no arm for `"^"`, so that branch falls into
`unreachable!()` — a panic, modelled as `crash`. -/
def operatorP : P ExprToken := fun input =>
  match (altListP (opTags.map (fun t => delimitedP multispace0P (tagP t) multispace0P))) input with
  | .ok rest s =>
    if s = "==".toList then .ok rest .eq
    else if s = "!=".toList then .ok rest .ne
    else if s = "<=".toList then .ok rest .le
    else if s = ">=".toList then .ok rest .ge
    else if s = "&&".toList then .ok rest .and
    else if s = "||".toList then .ok rest .or
    else if s = "!".toList then .ok rest .not
    else if s = ">".toList then .ok rest .gt
    else if s = "<".toList then .ok rest .lt
    else if s = "+".toList then .ok rest .plus
    else if s = "-".toList then .ok rest .minus
    else if s = "*".toList then .ok rest .mul
    else if s = "/".toList then .ok rest .div
    else if s = "%".toList then .ok rest .mod
    else .crash
  | .err => .err
  | .cutErr => .cutErr
  | .crash => .crash

/-! ### Insertion semantics of `HashMap<Key, V>` (dict.rs)

`Key`'s `PartialEq`/`Hash` use only `name`, so the map's probe is the name
alone; `HashMap::insert` keeps the stored key and overwrites the value.
The map is modelled as an insertion-ordered association list. -/

/-- `Key::eq` (dict.rs): name-only equality. -/
def keyBeq (a b : EKey) : Bool := a.name == b.name

/-- The byte stream `Key::hash` feeds to the hasher (dict.rs): exactly the
`name` field, so equal names hash identically under any hasher. -/
def keyHashInput (k : EKey) : List Char := k.name

/-- One `HashMap::insert`: update the value in place on a name collision
(keeping the originally stored key), else append. -/
def insertEntry {α : Type} : List (EKey × α) → EKey → α → List (EKey × α)
  | [], k, v => [(k, v)]
  | (k', v') :: rest, k, v =>
    if keyBeq k' k then (k', v) :: rest else (k', v') :: insertEntry rest k v

/-- `tuple_vec.into_iter().collect::<HashMap<_, _>>()`: left-to-right inserts. -/
def hashMapFromList {α : Type} (l : List (EKey × α)) : List (EKey × α) :=
  l.foldl (fun m kv => insertEntry m kv.1 kv.2) []

/-! ### The recursive grammar

All mutually recursive productions are gathered in `Gram`.  `gram (f+1)`
builds each production from the productions at depth `f` (a production
consuming one level of nesting always goes through at least one field
access, so any `f` larger than the parse's call depth gives the source's
semantics; runners pass a fuel well above that). -/

/-- The record of mutually recursive productions. -/
structure Gram : Type where
  eson : P Eson
  esonLit : P EsonLit
  lst : P (List Eson)
  litLst : P (List EsonLit)
  dict : P (List (EKey × Eson))
  litDict : P (List (EKey × EsonLit))
  key : P EKey
  annos : P (List Anno)
  anno : P Anno
  exprTokens : P (List ExprToken)
  exprChunk : P (List ExprToken)
  fmtString : P (List Char)
  string : P (List Char)

/-- Depth-0 grammar: everything fails (never reached at adequate fuel). -/
def Gram.stuck : Gram where
  eson := fun _ => .err
  esonLit := fun _ => .err
  lst := fun _ => .err
  litLst := fun _ => .err
  dict := fun _ => .err
  litDict := fun _ => .err
  key := fun _ => .err
  annos := fun _ => .err
  anno := fun _ => .err
  exprTokens := fun _ => .err
  exprChunk := fun _ => .err
  fmtString := fun _ => .err
  string := fun _ => .err

/-- Tags naming the grammar alternatives of the two entry points. -/
inductive AltTag : Type where
  | strT
  | numT
  | boolT
  | nullT
  | listT
  | dictT
  | exprT
deriving DecidableEq, Repr

/-- The alternatives of `eson` (lib.rs lines 69–82), in the source's order,
each paired with its tag. -/
def esonComponents (g : Gram) : List (AltTag × P Eson) :=
  [ (.strT, pmap Eson.str g.string)
  , (.numT, parseNumericP)
  , (.boolT, parseBooleanP)
  , (.nullT, parseNullP)
  , (.listT, pmap Eson.list g.lst)
  , (.dictT, pmap Eson.dict g.dict)
  , (.exprT, pmap Eson.expr g.exprChunk) ]

/-- `eson` from lib.rs: skip leading noise, then the alternation above. -/
def esonDefP (g : Gram) : P Eson :=
  precededP spP (altListP ((esonComponents g).map Prod.snd))

/-- The alternatives of `eson_literal` (lib.rs lines 84–96), in the source's
order, each paired with its tag. -/
def esonLitComponents (g : Gram) : List (AltTag × P EsonLit) :=
  [ (.numT, parseLitNumberP)
  , (.boolT, parseLitBooleanP)
  , (.nullT, parseLitNullP)
  , (.strT, pmap EsonLit.str parseLitStringP)
  , (.listT, pmap EsonLit.list g.litLst)
  , (.dictT, pmap EsonLit.dict g.litDict) ]

/-- `eson_literal` from lib.rs. -/
def esonLitDefP (g : Gram) : P EsonLit :=
  precededP spP (altListP ((esonLitComponents g).map Prod.snd))

/-- The closing `tuple((sp, opt(char(',')), sp, char(']')))` of `parse_lst`. -/
def lstTailP : P Unit :=
  bindP spP fun _ => bindP (optP (chP ',')) fun _ => bindP spP fun _ =>
    valueP () (chP ']')

/-- `parse_lst` from list.rs. -/
def parseLstDefP (g : Gram) : P (List Eson) :=
  precededP (chP '[')
    (cutP (terminatedP (sepList0P (precededP spP (chP ',')) g.eson) lstTailP))

/-- `parse_literal_lst` from list.rs. -/
def parseLitLstDefP (g : Gram) : P (List EsonLit) :=
  precededP (chP '[')
    (cutP (terminatedP (sepList0P (precededP spP (chP ',')) g.esonLit) lstTailP))

/-- `sp_without_br0` from annotation.rs: spaces/tabs/CR but not newline. -/
def spNoBrP : P (List Char) :=
  pmap (fun _ => ([] : List Char))
    (takeWhileP (fun c => c = ' ' || c = '\t' || c = '\r'))

/-- `annotation` from annotation.rs: `@` + identifier + optional
parenthesized literal-value list. -/
def annoDefP (g : Gram) : P Anno :=
  bindP (tagP "@".toList) fun _ =>
  bindP (terminatedP legalIdP spNoBrP) fun name =>
  bindP (optP (precededP (delimitedP spNoBrP (tagP "(".toList) spNoBrP)
    (delimitedP multispace0P
      (sepList0P (delimitedP multispace0P (tagP ",".toList) multispace0P) g.esonLit)
      (delimitedP multispace0P (tagP ")".toList) spNoBrP)))) fun value =>
  fun rest => .ok rest (Anno.mk name value)

/-- `parse_annotations` from annotation.rs. -/
def parseAnnosDefP (g : Gram) : P (List Anno) :=
  bindP multispace0P fun _ => many0P (delimitedP spP g.anno spP)

/-- `key` from dict.rs: optional annotations, then a (live) string or a bare
identifier. -/
def keyDefP (g : Gram) : P EKey :=
  bindP (optP g.annos) fun annosOpt =>
  bindP (precededP spP (altP g.string legalIdP)) fun name =>
  fun rest => .ok rest (EKey.mk name annosOpt)

/-- The closing `tuple((sp, opt(char(',')), sp, char('}')))` of `parse_dict`. -/
def dictTailP : P Unit :=
  bindP spP fun _ => bindP (optP (chP ',')) fun _ => bindP spP fun _ =>
    valueP () (chP '\x7d')

/-- `key_value` inside `parse_dict`. -/
def keyValueDefP (g : Gram) : P (EKey × Eson) :=
  sepPairP g.key (cutP (precededP spP (chP ':'))) g.eson

/-- `parse_dict` from dict.rs: `{`, comma-separated `key: value` pairs
collected into a `HashMap`, optional trailing comma, `}`. -/
def parseDictDefP (g : Gram) : P (List (EKey × Eson)) :=
  precededP (precededP spP (chP '\x7b'))
    (cutP (terminatedP
      (pmap hashMapFromList (sepList0P (precededP spP (chP ',')) (keyValueDefP g)))
      dictTailP))

/-- `key_literal_value` inside `parse_literal_dict`. -/
def keyLitValueDefP (g : Gram) : P (EKey × EsonLit) :=
  sepPairP g.key (cutP (precededP spP (chP ':'))) g.esonLit

/-- `parse_literal_dict` from dict.rs. -/
def parseLitDictDefP (g : Gram) : P (List (EKey × EsonLit)) :=
  precededP (precededP spP (chP '\x7b'))
    (cutP (terminatedP
      (pmap hashMapFromList (sepList0P (precededP spP (chP ',')) (keyLitValueDefP g)))
      dictTailP))

/-- `fn_call` from expr_token.rs. -/
def fnCallDefP (g : Gram) : P ExprToken :=
  pmap (fun (idArgs : List Char × List (List ExprToken)) =>
      ExprToken.fnCall idArgs.1 idArgs.2)
    (sepPairP legalIdP
      (delimitedP multispace0P (tagP "(".toList) multispace0P)
      (delimitedP multispace0P
        (sepList0P (delimitedP multispace0P (tagP ",".toList) multispace0P) g.exprTokens)
        (delimitedP multispace0P (tagP ")".toList) multispace0P)))

/-- `value` from expr_token.rs: a full live value as one token. -/
def valueTokDefP (g : Gram) : P ExprToken := pmap ExprToken.val g.eson

/-- `expr_token_set` from expr_token.rs: `many1` over fn_call, reference,
value, var, operator — in that order. -/
def exprTokenSetDefP (g : Gram) : P (List ExprToken) :=
  many1P (altListP [fnCallDefP g, referenceP, valueTokDefP g, varP, operatorP])

/-- `parse_expr_token_chunk` from expr_token.rs: `${ tokens }`. -/
def parseExprTokenChunkDefP (g : Gram) : P (List ExprToken) :=
  delimitedP (pairP (tagP "$\x7b".toList) multispace0P)
    g.exprTokens
    (pairP multispace0P (tagP "\x7d".toList))

/-- The fragment parser of `parse_format_string`: escaped char, escaped
whitespace, `${…}` splice (rendered with the chunk's `Display`), or a literal
run without `\` and `$`. -/
def fmtFragP (g : Gram) : P SFrag :=
  altListP
    [ pmap SFrag.esc escapedCharP
    , valueP SFrag.escWs escapedWsP
    , pmap (fun ch => SFrag.valS (renderChunk ch)) g.exprChunk
    , pmap SFrag.lit (takeWhile1P (fun c => !(c = '\\' || c = '$'))) ]

/-- The folding function of `parse_format_string` (escaped chars, literals
and splice renderings are appended; escaped whitespace is dropped). -/
def fmtJoin (fs : List SFrag) : List Char :=
  fs.foldl (fun acc f =>
    match f with
    | .esc c => acc ++ [c]
    | .lit s => acc ++ s
    | .valS s => acc ++ s
    | .escWs => acc) []

/-- `parse_format_string` from string.rs: read the raw fenced body, re-scan
it with `fmtFragP`, and return the fold result.  The scan's own leftover is
bound to `_remaining_in_f_str` in the source and discarded (nom `complete`
only converts `Incomplete`, which the model does not have). -/
def parseFmtStringDefP (g : Gram) : P (List Char) := fun input =>
  match parseRawStrP input with
  | .ok remaining rawStr =>
    match (pmap fmtJoin (many0P (fmtFragP g))) rawStr with
    | .ok _ s => .ok remaining s
    | .err => .err
    | .cutErr => .cutErr
    | .crash => .crash
  | .err => .err
  | .cutErr => .cutErr
  | .crash => .crash

/-- `parse_string` from string.rs: escaped-quoted, raw, or format form. -/
def parseStringDefP (g : Gram) : P (List Char) :=
  altListP
    [ delimitedP (chP '"') parseNormalStringP (chP '"')
    , precededP (chP 'r') parseRawStrP
    , precededP (chP 'f') (parseFmtStringDefP g) ]

/-- One level of the grammar from the previous level. -/
def Gram.next (g : Gram) : Gram where
  eson := esonDefP g
  esonLit := esonLitDefP g
  lst := parseLstDefP g
  litLst := parseLitLstDefP g
  dict := parseDictDefP g
  litDict := parseLitDictDefP g
  key := keyDefP g
  annos := parseAnnosDefP g
  anno := annoDefP g
  exprTokens := exprTokenSetDefP g
  exprChunk := parseExprTokenChunkDefP g
  fmtString := parseFmtStringDefP g
  string := parseStringDefP g

/-- The grammar at recursion depth `f`. -/
def gram : Nat → Gram
  | 0 => Gram.stuck
  | f + 1 => Gram.next (gram f)

/-- A fuel comfortably above the call depth of any parse of `s`. -/
def bigFuel (s : List Char) : Nat := 4 * s.length + 32

/-- Top-level `eson` (the live value entry point). -/
def esonRun (s : List Char) : PRes Eson := (gram (bigFuel s)).eson s

/-- Top-level `eson_literal`. -/
def esonLitRun (s : List Char) : PRes EsonLit := (gram (bigFuel s)).esonLit s

/-- Top-level `parse_string`. -/
def parseStringRun (s : List Char) : PRes (List Char) := (gram (bigFuel s)).string s

/-- Top-level `parse_dict`. -/
def parseDictRun (s : List Char) : PRes (List (EKey × Eson)) := (gram (bigFuel s)).dict s

/-- Top-level `parse_expr_token_chunk`. -/
def parseExprChunkRun (s : List Char) : PRes (List ExprToken) := (gram (bigFuel s)).exprChunk s

/-! ### Expression parser — precedence climbing (expr.rs) -/

/-- `Parser::precedence` from expr.rs.  The source's `match` contains two
arms for `Or` — `Or => 50` first, `Or => 25` later; Rust's `match` takes the
first matching arm, so `Or` gets precedence 50 and the `25` arm is dead
code (the model keeps the effective table). -/
def precedenceTok : ExprToken → Nat
  | .or => 50
  | .val _ => 0
  | .and => 30
  | .eq | .ne => 40
  | .lt | .gt | .le | .ge => 50
  | .plus | .minus => 60
  | .mul | .div | .mod => 70
  | .not => 80
  | .fnCall _ _ => 90
  | .ref _ => 90
  | .group _ => 90
  | _ => 0

/-- Result of `Parser::parse`: the built tree plus the tokens the cursor has
not consumed, or a panic (`take_next().unwrap()` on an exhausted stream, or
one of the two `panic!` arms). -/
inductive TRes : Type where
  | ok (rest : List ExprToken) (chunk : ExprChunk)
  | crash

mutual
/-- `Parser::parse(prec)` from expr.rs: read the leading token as a primary
or prefix operator, then enter the climbing loop (`loopTok`).  Fuel-indexed;
any fuel above the recursion depth gives the source's semantics. -/
def parseTok : Nat → Nat → List ExprToken → TRes
  | 0, _, _ => .crash
  | f + 1, prec, ts =>
    match ts with
    | [] => .crash
    | t :: rest =>
      match t with
      | .val _ => loopTok f prec (.primary t) rest
      | .fnCall _ _ => loopTok f prec (.primary t) rest
      | .ref _ => loopTok f prec (.primary t) rest
      | .group _ => loopTok f prec (.primary t) rest
      | .not =>
        match parseTok f (precedenceTok .not) rest with
        | .ok r c => loopTok f prec (.prefixOp t c) r
        | .crash => .crash
      | .plus =>
        match parseTok f (precedenceTok .plus) rest with
        | .ok r c => loopTok f prec (.prefixOp t c) r
        | .crash => .crash
      | .minus =>
        match parseTok f (precedenceTok .minus) rest with
        | .ok r c => loopTok f prec (.prefixOp t c) r
        | .crash => .crash
      | _ => .crash

/-- The `while prec < precedence_r` loop of `Parser::parse`: as long as the
peeked token's precedence strictly exceeds the bound, consume it and extend
`lhs` as an infix / prefix / postfix node. -/
def loopTok : Nat → Nat → ExprChunk → List ExprToken → TRes
  | 0, _, _, _ => .crash
  | f + 1, prec, lhs, ts =>
    let pr := match ts.head? with
              | Option.none => 0
              | some t => precedenceTok t
    if prec < pr then
      match ts with
      | [] => .crash
      | t :: rest =>
        match t with
        | .or =>
          match parseTok f (precedenceTok .or) rest with
          | .ok r rhs => loopTok f prec (.infixOp t lhs rhs) r
          | .crash => .crash
        | .and =>
          match parseTok f (precedenceTok .and) rest with
          | .ok r rhs => loopTok f prec (.infixOp t lhs rhs) r
          | .crash => .crash
        | .eq =>
          match parseTok f (precedenceTok .eq) rest with
          | .ok r rhs => loopTok f prec (.infixOp t lhs rhs) r
          | .crash => .crash
        | .ne =>
          match parseTok f (precedenceTok .eq) rest with
          | .ok r rhs => loopTok f prec (.infixOp t lhs rhs) r
          | .crash => .crash
        | .lt =>
          match parseTok f (precedenceTok .lt) rest with
          | .ok r rhs => loopTok f prec (.infixOp t lhs rhs) r
          | .crash => .crash
        | .gt =>
          match parseTok f (precedenceTok .lt) rest with
          | .ok r rhs => loopTok f prec (.infixOp t lhs rhs) r
          | .crash => .crash
        | .le =>
          match parseTok f (precedenceTok .lt) rest with
          | .ok r rhs => loopTok f prec (.infixOp t lhs rhs) r
          | .crash => .crash
        | .ge =>
          match parseTok f (precedenceTok .lt) rest with
          | .ok r rhs => loopTok f prec (.infixOp t lhs rhs) r
          | .crash => .crash
        | .plus =>
          match parseTok f (precedenceTok .plus) rest with
          | .ok r rhs => loopTok f prec (.infixOp t lhs rhs) r
          | .crash => .crash
        | .minus =>
          match parseTok f (precedenceTok .plus) rest with
          | .ok r rhs => loopTok f prec (.infixOp t lhs rhs) r
          | .crash => .crash
        | .mul =>
          match parseTok f (precedenceTok .mul) rest with
          | .ok r rhs => loopTok f prec (.infixOp t lhs rhs) r
          | .crash => .crash
        | .div =>
          match parseTok f (precedenceTok .mul) rest with
          | .ok r rhs => loopTok f prec (.infixOp t lhs rhs) r
          | .crash => .crash
        | .mod =>
          match parseTok f (precedenceTok .mul) rest with
          | .ok r rhs => loopTok f prec (.infixOp t lhs rhs) r
          | .crash => .crash
        | .not =>
          match parseTok f (precedenceTok .not) rest with
          | .ok r c => loopTok f prec (.prefixOp t c) r
          | .crash => .crash
        | .fnCall _ _ => loopTok f prec (.postfixOp t lhs) rest
        | .ref _ => loopTok f prec (.postfixOp t lhs) rest
        | .group _ => loopTok f prec (.postfixOp t lhs) rest
        | _ => .crash
    else .ok ts lhs
end

/-- Run `Parser::parse(0)` on a token stream (as the tests in expr.rs do),
with ample fuel. -/
def runExprParser (ts : List ExprToken) : TRes :=
  parseTok (2 * ts.length + 2) 0 ts

/-- The digit string of a decimal literal: nonempty, all ASCII digits. -/
def DecRun (ds : List Char) : Prop := ds ≠ [] ∧ ∀ c ∈ ds, c.isDigit = true

/-! ### Helper lemmas -/

theorem takeWhile_app_all {p : Char → Bool} {l1 : List Char} (l2 : List Char)
    (h : ∀ c ∈ l1, p c = true) : (l1 ++ l2).takeWhile p = l1 ++ l2.takeWhile p := by
  induction l1 with
  | nil => simp
  | cons c cs ih =>
    simp [List.takeWhile_cons, h c (by simp), ih (fun x hx => h x (by simp [hx]))]

theorem dropWhile_app_all {p : Char → Bool} {l1 : List Char} (l2 : List Char)
    (h : ∀ c ∈ l1, p c = true) : (l1 ++ l2).dropWhile p = l2.dropWhile p := by
  induction l1 with
  | nil => simp
  | cons c cs ih =>
    simp [List.dropWhile_cons, h c (by simp), ih (fun x hx => h x (by simp [hx]))]

theorem takeWhile_head_fail {p : Char → Bool} {l : List Char}
    (h : ∀ c, l.head? = some c → p c = false) : l.takeWhile p = [] := by
  cases l with
  | nil => rfl
  | cons c cs => simp [List.takeWhile_cons, h c rfl]

theorem dropWhile_head_fail {p : Char → Bool} {l : List Char}
    (h : ∀ c, l.head? = some c → p c = false) : l.dropWhile p = l := by
  cases l with
  | nil => rfl
  | cons c cs => simp [List.dropWhile_cons, h c rfl]

/-- `take_while1` consumes exactly a run `ds` when everything in `ds`
satisfies the predicate and the next character (if any) does not. -/
theorem takeWhile1P_exact {p : Char → Bool} {ds rest : List Char}
    (h1 : ds ≠ []) (h2 : ∀ c ∈ ds, p c = true)
    (h3 : ∀ c, rest.head? = some c → p c = false) :
    takeWhile1P p (ds ++ rest) = .ok rest ds := by
  cases ds with
  | nil => exact absurd rfl h1
  | cons d ds' =>
    have hd : p d = true := h2 d (by simp)
    have htw : ((d :: ds') ++ rest).takeWhile p = (d :: ds') ++ rest.takeWhile p :=
      takeWhile_app_all rest h2
    have hdw : ((d :: ds') ++ rest).dropWhile p = rest.dropWhile p :=
      dropWhile_app_all rest h2
    simp only [takeWhile1P, List.cons_append, hd, if_true]
    rw [show (d :: (ds' ++ rest)) = (d :: ds') ++ rest from rfl, htw, hdw,
      takeWhile_head_fail h3, dropWhile_head_fail h3]
    simp

/-- `count(tag("#"), n)` consumes exactly `n` leading hashes. -/
theorem countP_hashes (n : Nat) (rest : List Char) :
    countP (tagP ['#']) n (List.replicate n '#' ++ rest)
      = .ok rest (List.replicate n ['#']) := by
  induction n generalizing rest with
  | zero => simp [countP]
  | succ k ih =>
    have h1 : tagP ['#'] ('#' :: (List.replicate k '#' ++ rest))
        = .ok (List.replicate k '#' ++ rest) ['#'] := by
      simp [tagP, List.isPrefixOf]
    simp [countP, List.replicate_succ, h1, ih]

/-- `count(tag("#"), n)` fails when only `m < n` hashes remain before the
end of input. -/
theorem countP_hashes_short {m n : Nat} (h : m < n) :
    countP (tagP ['#']) n (List.replicate m '#') = .err := by
  induction m generalizing n with
  | zero =>
    cases n with
    | zero => omega
    | succ k => simp [countP, tagP, List.isPrefixOf]
  | succ j ih =>
    cases n with
    | zero => omega
    | succ k =>
      have h1 : tagP ['#'] ('#' :: List.replicate j '#')
          = .ok (List.replicate j '#') ['#'] := by
        simp [tagP, List.isPrefixOf]
      have h2 : countP (tagP ['#']) k (List.replicate j '#') = .err := ih (by omega)
      simp [countP, List.replicate_succ, h1, h2]

/-- The closing fence matches at a `"` followed by `n` hashes. -/
theorem closeFence_at (n : Nat) (rest : List Char) :
    closeFenceP n ('"' :: (List.replicate n '#' ++ rest)) = .ok rest () := by
  have h1 : tagP ['"'] ('"' :: (List.replicate n '#' ++ rest))
      = .ok (List.replicate n '#' ++ rest) ['"'] := by
    simp [tagP, List.isPrefixOf]
  simp [closeFenceP, pairP, bindP, pmap, h1, countP_hashes]

/-- The closing fence cannot match at a non-quote character. -/
theorem closeFence_nonquote {c : Char} (n : Nat) (hc : c ≠ '"') (xs : List Char) :
    closeFenceP n (c :: xs) = .err := by
  have h1 : tagP ['"'] (c :: xs) = .err := by
    simp [tagP, List.isPrefixOf, Ne.symm hc]
  simp [closeFenceP, pairP, bindP, pmap, h1]

/-- The closing fence fails at a quote followed by too few hashes at the end
of input. -/
theorem closeFence_short {m n : Nat} (h : m < n) :
    closeFenceP n ('"' :: List.replicate m '#') = .err := by
  have h1 : tagP ['"'] ('"' :: List.replicate m '#')
      = .ok (List.replicate m '#') ['"'] := by
    simp [tagP, List.isPrefixOf]
  simp [closeFenceP, pairP, bindP, pmap, h1, countP_hashes_short h]

/-- `many_till(take(1), closing)` collects exactly a quote-free content `s`
when it is followed by a well-formed closing fence. -/
theorem manyTill_content (n : Nat) (s rest : List Char)
    (hs : ∀ c ∈ s, c ≠ '"') :
    manyTillTake1P (closeFenceP n) (s ++ '"' :: (List.replicate n '#' ++ rest))
      = .ok rest (s, ()) := by
  induction s with
  | nil => simp [manyTillTake1P, closeFence_at]
  | cons c cs ih =>
    have hc : c ≠ '"' := hs c (by simp)
    have := ih (fun x hx => hs x (by simp [hx]))
    simp [manyTillTake1P, closeFence_nonquote n hc, this]

/-- `many_till(take(1), closing)` runs off the end of a pure-hash tail. -/
theorem manyTill_hashes (n k : Nat) (hk : k < n) :
    manyTillTake1P (closeFenceP n) (List.replicate k '#') = .err := by
  induction k with
  | zero =>
    have h1 : tagP ['"'] ([] : List Char) = .err := by
      simp [tagP, List.isPrefixOf]
    simp [manyTillTake1P, List.replicate, closeFenceP, pairP, bindP, pmap, h1]
  | succ j ih =>
    have hh : ('#' : Char) ≠ '"' := by decide
    simp [List.replicate_succ, manyTillTake1P, closeFence_nonquote n hh, ih (by omega)]

/-- With quote-free content and a closing fence of `m < n` hashes at the end
of input, the scan finds no close and fails. -/
theorem manyTill_no_close {n m : Nat} (h : m < n) (s : List Char)
    (hs : ∀ c ∈ s, c ≠ '"') :
    manyTillTake1P (closeFenceP n) (s ++ '"' :: List.replicate m '#') = .err := by
  induction s with
  | nil =>
    simp [manyTillTake1P, closeFence_short h, manyTill_hashes n m h]
  | cons c cs ih =>
    have hc : c ≠ '"' := hs c (by simp)
    simp [manyTillTake1P, closeFence_nonquote n hc, ih (fun x hx => hs x (by simp [hx]))]

theorem parseRawStr_ok (n : Nat) (s rest : List Char) (hs : ∀ c ∈ s, c ≠ '"') :
    parseRawStrP (List.replicate n '#' ++ '"' :: (s ++ '"' :: (List.replicate n '#' ++ rest)))
      = .ok rest s := by
  have htw : (List.replicate n '#' ++ '"' :: (s ++ '"' :: (List.replicate n '#' ++ rest))).takeWhile
      (fun c => decide (c = '#')) = List.replicate n '#' := by
    rw [takeWhile_app_all]
    · simp [List.takeWhile_cons]
    · intro c hc
      simp [List.eq_of_mem_replicate hc]
  have hdrop : (List.replicate n '#' ++ '"' :: (s ++ '"' :: (List.replicate n '#' ++ rest))).drop n
      = '"' :: (s ++ '"' :: (List.replicate n '#' ++ rest)) := List.drop_left' (by simp)
  have hdrop1 : (List.replicate n '#' ++ '"' :: (s ++ '"' :: (List.replicate n '#' ++ rest))).drop (n+1)
      = s ++ '"' :: (List.replicate n '#' ++ rest) := by
    have hassoc : List.replicate n '#' ++ '"' :: (s ++ '"' :: (List.replicate n '#' ++ rest))
        = (List.replicate n '#' ++ ['"']) ++ (s ++ '"' :: (List.replicate n '#' ++ rest)) := by
      simp
    rw [hassoc]
    exact List.drop_left' (by simp)
  have htag : tagP ['"'] ('"' :: (s ++ '"' :: (List.replicate n '#' ++ rest)))
      = .ok (s ++ '"' :: (List.replicate n '#' ++ rest)) ['"'] := by
    simp [tagP, List.isPrefixOf]
  simp only [parseRawStrP, htw, List.length_replicate, hdrop, htag,
    manyTill_content n s rest hs, hdrop1]
  simp [List.take_left]

theorem parseRawStr_mismatch {n m : Nat} (h : m < n) (s : List Char)
    (hs : ∀ c ∈ s, c ≠ '"') :
    parseRawStrP (List.replicate n '#' ++ '"' :: (s ++ '"' :: List.replicate m '#'))
      = .err := by
  have htw : (List.replicate n '#' ++ '"' :: (s ++ '"' :: List.replicate m '#')).takeWhile
      (fun c => decide (c = '#')) = List.replicate n '#' := by
    rw [takeWhile_app_all]
    · simp [List.takeWhile_cons]
    · intro c hc
      simp [List.eq_of_mem_replicate hc]
  have hdrop : (List.replicate n '#' ++ '"' :: (s ++ '"' :: List.replicate m '#')).drop n
      = '"' :: (s ++ '"' :: List.replicate m '#') := List.drop_left' (by simp)
  have htag : tagP ['"'] ('"' :: (s ++ '"' :: List.replicate m '#'))
      = .ok (s ++ '"' :: List.replicate m '#') ['"'] := by
    simp [tagP, List.isPrefixOf]
  simp only [parseRawStrP, htw, List.length_replicate, hdrop, htag,
    manyTill_no_close h s hs]

theorem parseString_raw_ok (g : Gram) (n : Nat) (s rest : List Char)
    (hs : ∀ c ∈ s, c ≠ '"') :
    parseStringDefP g
      ('r' :: (List.replicate n '#' ++ '"' :: (s ++ '"' :: (List.replicate n '#' ++ rest))))
      = .ok rest s := by
  have h1 : chP '"' ('r' :: (List.replicate n '#' ++ '"' :: (s ++ '"' :: (List.replicate n '#' ++ rest)))) = .err := by
    simp [chP]
  have h2 : chP 'r' ('r' :: (List.replicate n '#' ++ '"' :: (s ++ '"' :: (List.replicate n '#' ++ rest))))
      = .ok (List.replicate n '#' ++ '"' :: (s ++ '"' :: (List.replicate n '#' ++ rest))) 'r' := by
    simp [chP]
  simp [parseStringDefP, altListP, altP, delimitedP, precededP, terminatedP, bindP, pmap,
    h1, h2, parseRawStr_ok n s rest hs]

theorem parseString_raw_mismatch (g : Gram) {n m : Nat} (h : m < n) (s : List Char)
    (hs : ∀ c ∈ s, c ≠ '"') :
    parseStringDefP g ('r' :: (List.replicate n '#' ++ '"' :: (s ++ '"' :: List.replicate m '#')))
      = .err := by
  have h1 : chP '"' ('r' :: (List.replicate n '#' ++ '"' :: (s ++ '"' :: List.replicate m '#'))) = .err := by
    simp [chP]
  have h2 : chP 'r' ('r' :: (List.replicate n '#' ++ '"' :: (s ++ '"' :: List.replicate m '#')))
      = .ok (List.replicate n '#' ++ '"' :: (s ++ '"' :: List.replicate m '#')) 'r' := by
    simp [chP]
  have h3 : chP 'f' ('r' :: (List.replicate n '#' ++ '"' :: (s ++ '"' :: List.replicate m '#'))) = .err := by
    simp [chP]
  simp [parseStringDefP, altListP, altP, delimitedP, precededP, terminatedP, bindP, pmap,
    h1, h2, h3, parseRawStr_mismatch h s hs]

/-! ### Claim theorems -/

/-- C1: parsing the token sequence of `1 + 2 * 3` with the precedence
climbing parser (minimum bound 0) yields
`InfixOp(Plus, Primary(1), InfixOp(Mul, Primary(2), Primary(3)))`, and the
same shape holds for every value-Plus-value-Mul-value token sequence:
multiplication binds tighter than addition. -/
theorem c1_mul_binds_tighter_than_plus :
    (∀ a b c : Eson,
      runExprParser [.val a, .plus, .val b, .mul, .val c]
        = .ok [] (.infixOp .plus (.primary (.val a))
            (.infixOp .mul (.primary (.val b)) (.primary (.val c))))) ∧
    runExprParser [.val (.int 1), .plus, .val (.int 2), .mul, .val (.int 3)]
      = .ok [] (.infixOp .plus (.primary (.val (.int 1)))
          (.infixOp .mul (.primary (.val (.int 2))) (.primary (.val (.int 3))))) :=
  ⟨fun _ _ _ => rfl, rfl⟩

/-- C2 (counter-evidence): in the code as written, `Or` has precedence 50
(the first `match` arm; the later `Or => 25` arm is dead) while `And` has 30,
so `A || B && C` parses as `InfixOp(And, InfixOp(Or, A, B), C)` — the exact
opposite grouping of the claimed `InfixOp(Or, A, InfixOp(And, B, C))`. -/
theorem c2_code_groups_or_tighter_than_and :
    (∀ a b c : Eson,
      runExprParser [.val a, .or, .val b, .and, .val c]
        = .ok [] (.infixOp .and
            (.infixOp .or (.primary (.val a)) (.primary (.val b)))
            (.primary (.val c)))) ∧
    precedenceTok .or = 50 ∧ precedenceTok .and = 30 :=
  ⟨fun _ _ _ => rfl, rfl, rfl⟩

/-- C6 (counter-evidence): the decimal scanner panics (`.expect("TODO")`) on
an out-of-`i64`-range literal such as `9223372036854775808` (= 2^63), and the
expression parser panics on a malformed token stream — a leading infix
operator (`*`) or a lone operator with no operand (`-`) — instead of
returning recoverable errors. -/
theorem c6_overflow_and_malformed_tokens_panic :
    parseNumericP "9223372036854775808".toList = .crash ∧
    parseLitNumberP "9223372036854775808".toList = .crash ∧
    runExprParser [.mul] = .crash ∧
    runExprParser [.minus] = .crash :=
  ⟨rfl, rfl, rfl, rfl⟩

/-- C9 (counter-evidence): the operator lexer's `alt` accepts `^`, but the
decoding `match` has no arm for it, so lexing `^` falls into
`unreachable!()` — a panic, not a token or a recoverable failure.  Both the
bare operator rule and the full `${ 1 ^ 2 }` tokenization crash. -/
theorem c9_caret_hits_unreachable :
    operatorP "^".toList = .crash ∧
    parseExprChunkRun "$\x7b 1 ^ 2 \x7d".toList = .crash :=
  ⟨rfl, rfl⟩

/-- C7: a raw string `r` + N hashes + `"` takes its content verbatim up to
a `"` followed by N hashes: for every fence count `n`, quote-free content
`s` and trailing input `rest`, parsing succeeds with exactly `s`; with a
closing fence of only `m < n` hashes before the end of input there is no
valid close and the raw-string parse fails.  In particular `r##"John"##`
and `r#"John"#` both parse to `"John"`, and the mismatched `r##"John"#`
fails to parse. -/
theorem c7_raw_string_fence_matching :
    (∀ (g : Gram) (n : Nat) (s rest : List Char), (∀ c ∈ s, c ≠ '"') →
      parseStringDefP g
        ('r' :: (List.replicate n '#' ++ '"' :: (s ++ '"' :: (List.replicate n '#' ++ rest))))
        = .ok rest s) ∧
    (∀ (g : Gram) (n m : Nat) (s : List Char), m < n → (∀ c ∈ s, c ≠ '"') →
      parseStringDefP g
        ('r' :: (List.replicate n '#' ++ '"' :: (s ++ '"' :: List.replicate m '#')))
        = .err) ∧
    parseStringRun "r##\"John\"##".toList = .ok [] "John".toList ∧
    parseStringRun "r#\"John\"#".toList = .ok [] "John".toList ∧
    parseStringRun "r##\"John\"#".toList = .err :=
  ⟨fun g n s rest hs => parseString_raw_ok g n s rest hs,
   fun g n m s h hs => parseString_raw_mismatch g h s hs,
   rfl, rfl, rfl⟩

/-- Witness for C7: the general fence theorem applied at `n = 3`,
content `ab`, trailing `|`, and at the mismatch `n = 2, m = 1`. -/
theorem c7_raw_string_fence_matching_witness :
    parseStringDefP (gram 0)
      ('r' :: (List.replicate 3 '#' ++ '"' :: ("ab".toList ++ '"' :: (List.replicate 3 '#' ++ ['|']))))
      = .ok ['|'] "ab".toList ∧
    parseStringDefP (gram 0)
      ('r' :: (List.replicate 2 '#' ++ '"' :: ("ab".toList ++ '"' :: List.replicate 1 '#')))
      = .err :=
  ⟨c7_raw_string_fence_matching.1 (gram 0) 3 "ab".toList ['|'] (by decide),
   c7_raw_string_fence_matching.2.1 (gram 0) 2 1 "ab".toList (by decide) (by decide)⟩

theorem chP_err {c : Char} {input : List Char}
    (h : ∀ c', input.head? = some c' → c' ≠ c) : chP c input = .err := by
  cases input with
  | nil => rfl
  | cons x xs => simp [chP, h x rfl]

theorem tagP_one_err {c : Char} {input : List Char}
    (h : ∀ c', input.head? = some c' → c' ≠ c) : tagP [c] input = .err := by
  cases input with
  | nil => simp [tagP, List.isPrefixOf]
  | cons x xs => simp [tagP, List.isPrefixOf, Ne.symm (h x rfl)]

theorem tagP_two_err {a b : Char} {input : List Char}
    (h : ∀ t, input ≠ a :: b :: t) : tagP [a, b] input = .err := by
  match input with
  | [] => simp [tagP, List.isPrefixOf]
  | [x] => simp [tagP, List.isPrefixOf]
  | x :: y :: t =>
    by_cases hax : a = x
    · by_cases hby : b = y
      · subst hax; subst hby; exact absurd rfl (h t)
      · simp [tagP, List.isPrefixOf, hby]
    · simp [tagP, List.isPrefixOf, hax]

theorem radixIntP_err {pre : List Char} (isD : Char → Bool) (radix : Nat)
    {input : List Char} (h : tagP pre input = .err) :
    radixIntP pre isD radix input = .err := by
  simp [radixIntP, radixDigitsP, precededP, bindP, h]

/-- A two-character tag `0c₂` with a non-digit `c₂` fails on a digit run
followed by a rest that does not begin with `c₂`. -/
theorem digit_run_tag_fail (c2 : Char) {ds rest : List Char} (hds : DecRun ds)
    (hc2 : c2.isDigit = false)
    (hrest : ∀ c, rest.head? = some c → c ≠ c2) :
    tagP ['0', c2] (ds ++ rest) = .err := by
  obtain ⟨hne, hdig⟩ := hds
  apply tagP_two_err
  intro t heq
  match ds, hne with
  | [d], _ =>
    simp only [List.singleton_append] at heq
    injection heq with h1 h2
    exact (hrest c2 (by rw [h2]; rfl)) rfl
  | d1 :: d2 :: ds', _ =>
    simp only [List.cons_append] at heq
    injection heq with h1 h2
    injection h2 with h2 h3
    have hd2 : d2.isDigit = true := hdig d2 (by simp)
    rw [h2, hc2] at hd2
    exact Bool.noConfusion hd2

/-- On a decimal run the decimal branch with no fraction and no exponent
ahead produces an `Int` of the digits. -/
theorem decimalNumP_int {ds rest : List Char} (hds : DecRun ds)
    (hrest : ∀ c, rest.head? = some c →
      (c.isDigit = false ∧ c ≠ '.' ∧ c ≠ 'e' ∧ c ≠ 'E'))
    (hrange : digitsVal 10 ds ≤ I64MAX) :
    decimalNumP (ds ++ rest) = .ok rest (.int (digitsVal 10 ds)) := by
  have hdig : digit1P (ds ++ rest) = .ok rest ds :=
    takeWhile1P_exact hds.1 hds.2 (fun c hc => (hrest c hc).1)
  have hdot : chP '.' rest = .err := chP_err (fun c hc => (hrest c hc).2.1)
  have he : tagP ['e'] rest = .err := tagP_one_err (fun c hc => (hrest c hc).2.2.1)
  have hE : tagP ['E'] rest = .err := tagP_one_err (fun c hc => (hrest c hc).2.2.2)
  simp [decimalNumP, bindP, hdig, optP, precededP, hdot, tagNoCaseEP, altP, he, hE, hrange]

/-- On a decimal run followed by `.` and a fraction run, the decimal branch
produces the `Float` of the reconstructed literal. -/
theorem decimalNumP_float {ds fs rest : List Char} (hds : DecRun ds) (hfs : DecRun fs)
    (hrest : ∀ c, rest.head? = some c → (c.isDigit = false ∧ c ≠ 'e' ∧ c ≠ 'E')) :
    decimalNumP (ds ++ '.' :: (fs ++ rest))
      = .ok rest (.float (F64.finite (decToRat ds (some fs) Option.none))) := by
  have hdig1 : digit1P (ds ++ '.' :: (fs ++ rest)) = .ok ('.' :: (fs ++ rest)) ds := by
    apply takeWhile1P_exact hds.1 hds.2
    intro c hc
    injection hc with hc
    rw [← hc]
    decide
  have hdotok : chP '.' ('.' :: (fs ++ rest)) = .ok (fs ++ rest) '.' := by simp [chP]
  have hdig2 : digit1P (fs ++ rest) = .ok rest fs :=
    takeWhile1P_exact hfs.1 hfs.2 (fun c hc => (hrest c hc).1)
  have he : tagP ['e'] rest = .err := tagP_one_err (fun c hc => (hrest c hc).2.1)
  have hE : tagP ['E'] rest = .err := tagP_one_err (fun c hc => (hrest c hc).2.2)
  simp [decimalNumP, bindP, hdig1, optP, precededP, hdotok, hdig2, tagNoCaseEP, altP, he, hE]

/-- Full `parse_numeric` on a plain decimal-integer literal. -/
theorem parseNumericP_decimal_int {ds rest : List Char} (hds : DecRun ds)
    (hrest : ∀ c, rest.head? = some c →
      (c.isDigit = false ∧ c ≠ '.' ∧ c ≠ 'e' ∧ c ≠ 'E' ∧ c ≠ 'b' ∧ c ≠ 'o' ∧ c ≠ 'x'))
    (hrange : digitsVal 10 ds ≤ I64MAX) :
    parseNumericP (ds ++ rest) = .ok rest (.int (digitsVal 10 ds)) := by
  have hb := radixIntP_err isBinC 2
    (digit_run_tag_fail 'b' hds (by decide) (fun c hc => (hrest c hc).2.2.2.2.1))
  have ho := radixIntP_err isOctC 8
    (digit_run_tag_fail 'o' hds (by decide) (fun c hc => (hrest c hc).2.2.2.2.2.1))
  have hx := radixIntP_err isHexC 16
    (digit_run_tag_fail 'x' hds (by decide) (fun c hc => (hrest c hc).2.2.2.2.2.2))
  have hdec := decimalNumP_int hds
    (fun c hc => ⟨(hrest c hc).1, (hrest c hc).2.1, (hrest c hc).2.2.1, (hrest c hc).2.2.2.1⟩)
    hrange
  simp [parseNumericP, altListP, altP, hb, ho, hx, hdec]

/-- Full `parse_numeric` on a decimal literal with a fraction part. -/
theorem parseNumericP_decimal_float {ds fs rest : List Char} (hds : DecRun ds)
    (hfs : DecRun fs)
    (hrest : ∀ c, rest.head? = some c → (c.isDigit = false ∧ c ≠ 'e' ∧ c ≠ 'E')) :
    parseNumericP (ds ++ '.' :: (fs ++ rest))
      = .ok rest (.float (F64.finite (decToRat ds (some fs) Option.none))) := by
  have hdotrest : ∀ c : Char, ('.' :: (fs ++ rest)).head? = some c → ∀ x ∈ ['b', 'o', 'x'], c ≠ x := by
    intro c hc x hx
    injection hc with hc
    rw [← hc]
    fin_cases hx <;> decide
  have hb := radixIntP_err isBinC 2
    (digit_run_tag_fail 'b' hds (by decide) (fun c hc => hdotrest c hc 'b' (by simp)))
  have ho := radixIntP_err isOctC 8
    (digit_run_tag_fail 'o' hds (by decide) (fun c hc => hdotrest c hc 'o' (by simp)))
  have hx := radixIntP_err isHexC 16
    (digit_run_tag_fail 'x' hds (by decide) (fun c hc => hdotrest c hc 'x' (by simp)))
  have hdec := decimalNumP_float hds hfs hrest
  simp [parseNumericP, altListP, altP, hb, ho, hx, hdec]

theorem radixIntP_ok_int {pre : List Char} {isD : Char → Bool} {radix : Nat}
    {input rest : List Char} {seg : Eson}
    (h : radixIntP pre isD radix input = .ok rest seg) : ∃ i, seg = Eson.int i := by
  unfold radixIntP at h
  cases hd : radixDigitsP pre isD input with
  | ok r ds =>
    rw [hd] at h
    by_cases hv : digitsVal radix ds ≤ I64MAX
    · simp only [hv, if_true] at h
      injection h with h1 h2
      exact ⟨digitsVal radix ds, h2.symm⟩
    · simp [hv] at h
  | err => rw [hd] at h; exact absurd h (by simp)
  | cutErr => rw [hd] at h; exact absurd h (by simp)
  | crash => rw [hd] at h; exact absurd h (by simp)

theorem parseNumericP_0b_int (t rest : List Char) (seg : Eson)
    (h : parseNumericP ('0' :: 'b' :: t) = .ok rest seg) : ∃ i, seg = Eson.int i := by
  cases hb : radixIntP ['0', 'b'] isBinC 2 ('0' :: 'b' :: t) with
  | ok r v =>
    have heq : parseNumericP ('0' :: 'b' :: t) = .ok r v := by
      simp [parseNumericP, altListP, altP, hb]
    rw [heq] at h
    injection h with h1 h2
    subst h2
    exact radixIntP_ok_int hb
  | err =>
    have ho : radixIntP ['0', 'o'] isOctC 8 ('0' :: 'b' :: t) = .err := rfl
    have hx : radixIntP ['0', 'x'] isHexC 16 ('0' :: 'b' :: t) = .err := rfl
    have hdec : decimalNumP ('0' :: 'b' :: t) = .ok ('b' :: t) (.int 0) := rfl
    have heq : parseNumericP ('0' :: 'b' :: t) = .ok ('b' :: t) (.int 0) := by
      simp [parseNumericP, altListP, altP, hb, ho, hx, hdec]
    rw [heq] at h
    injection h with h1 h2
    subst h2
    exact ⟨0, rfl⟩
  | cutErr =>
    have heq : parseNumericP ('0' :: 'b' :: t) = .cutErr := by
      simp [parseNumericP, altListP, altP, hb]
    rw [heq] at h
    exact absurd h (by simp)
  | crash =>
    have heq : parseNumericP ('0' :: 'b' :: t) = .crash := by
      simp [parseNumericP, altListP, altP, hb]
    rw [heq] at h
    exact absurd h (by simp)

theorem parseNumericP_0o_int (t rest : List Char) (seg : Eson)
    (h : parseNumericP ('0' :: 'o' :: t) = .ok rest seg) : ∃ i, seg = Eson.int i := by
  have hb : radixIntP ['0', 'b'] isBinC 2 ('0' :: 'o' :: t) = .err := rfl
  cases ho : radixIntP ['0', 'o'] isOctC 8 ('0' :: 'o' :: t) with
  | ok r v =>
    have heq : parseNumericP ('0' :: 'o' :: t) = .ok r v := by
      simp [parseNumericP, altListP, altP, hb, ho]
    rw [heq] at h
    injection h with h1 h2
    subst h2
    exact radixIntP_ok_int ho
  | err =>
    have hx : radixIntP ['0', 'x'] isHexC 16 ('0' :: 'o' :: t) = .err := rfl
    have hdec : decimalNumP ('0' :: 'o' :: t) = .ok ('o' :: t) (.int 0) := rfl
    have heq : parseNumericP ('0' :: 'o' :: t) = .ok ('o' :: t) (.int 0) := by
      simp [parseNumericP, altListP, altP, hb, ho, hx, hdec]
    rw [heq] at h
    injection h with h1 h2
    subst h2
    exact ⟨0, rfl⟩
  | cutErr =>
    have heq : parseNumericP ('0' :: 'o' :: t) = .cutErr := by
      simp [parseNumericP, altListP, altP, hb, ho]
    rw [heq] at h
    exact absurd h (by simp)
  | crash =>
    have heq : parseNumericP ('0' :: 'o' :: t) = .crash := by
      simp [parseNumericP, altListP, altP, hb, ho]
    rw [heq] at h
    exact absurd h (by simp)

theorem parseNumericP_0x_int (t rest : List Char) (seg : Eson)
    (h : parseNumericP ('0' :: 'x' :: t) = .ok rest seg) : ∃ i, seg = Eson.int i := by
  have hb : radixIntP ['0', 'b'] isBinC 2 ('0' :: 'x' :: t) = .err := rfl
  have ho : radixIntP ['0', 'o'] isOctC 8 ('0' :: 'x' :: t) = .err := rfl
  cases hx : radixIntP ['0', 'x'] isHexC 16 ('0' :: 'x' :: t) with
  | ok r v =>
    have heq : parseNumericP ('0' :: 'x' :: t) = .ok r v := by
      simp [parseNumericP, altListP, altP, hb, ho, hx]
    rw [heq] at h
    injection h with h1 h2
    subst h2
    exact radixIntP_ok_int hx
  | err =>
    have hdec : decimalNumP ('0' :: 'x' :: t) = .ok ('x' :: t) (.int 0) := rfl
    have heq : parseNumericP ('0' :: 'x' :: t) = .ok ('x' :: t) (.int 0) := by
      simp [parseNumericP, altListP, altP, hb, ho, hx, hdec]
    rw [heq] at h
    injection h with h1 h2
    subst h2
    exact ⟨0, rfl⟩
  | cutErr =>
    have heq : parseNumericP ('0' :: 'x' :: t) = .cutErr := by
      simp [parseNumericP, altListP, altP, hb, ho, hx]
    rw [heq] at h
    exact absurd h (by simp)
  | crash =>
    have heq : parseNumericP ('0' :: 'x' :: t) = .crash := by
      simp [parseNumericP, altListP, altP, hb, ho, hx]
    rw [heq] at h
    exact absurd h (by simp)

/-- C3 (counterexample): the literal entry point's alternative order is not
the claimed string-first order — `eson_literal` tries the numeric
alternative first. -/
theorem c3_counterexample_literal_order :
    (esonLitComponents (gram 0)).map Prod.fst
      ≠ [AltTag.strT, AltTag.numT, AltTag.boolT, AltTag.nullT, AltTag.listT, AltTag.dictT] := by
  decide

/-- C3 (amended): both entry points first run the whitespace/comment skipper
and then try their alternatives in a fixed order, the first success
determining the result — but the orders differ: the live parser tries
string, numeric, boolean, null, list, dict, expression, while the literal
parser tries numeric, boolean, null, string, list, dict. -/
theorem c3_entry_point_alternative_orders :
    (∀ g : Gram, (esonComponents g).map Prod.fst
        = [AltTag.strT, AltTag.numT, AltTag.boolT, AltTag.nullT, AltTag.listT,
           AltTag.dictT, AltTag.exprT]) ∧
    (∀ g : Gram, (esonLitComponents g).map Prod.fst
        = [AltTag.numT, AltTag.boolT, AltTag.nullT, AltTag.strT, AltTag.listT,
           AltTag.dictT]) ∧
    (∀ g : Gram, esonDefP g = precededP spP (altListP ((esonComponents g).map Prod.snd))) ∧
    (∀ g : Gram, esonLitDefP g = precededP spP (altListP ((esonLitComponents g).map Prod.snd))) ∧
    (∀ f : Nat, (gram (f + 1)).eson = esonDefP (gram f)
       ∧ (gram (f + 1)).esonLit = esonLitDefP (gram f)) ∧
    (∀ (α : Type) (p q : P α) (input : List Char),
      altP p q input = match p input with
        | .err => q input
        | r => r) :=
  ⟨fun _ => rfl, fun _ => rfl, fun _ => rfl, fun _ => rfl,
   fun _ => ⟨rfl, rfl⟩, fun _ _ _ _ => rfl⟩

/-- C4 (counterexample): `parse_literal_number("123.456e-10")` evaluates to
the float `123456/10^13` (= 1.23456e-8), which is not the claimed
`1.23456e-11` (= 123456/10^16). -/
theorem c4_counterexample_float_value :
    parseLitNumberP "123.456e-10".toList
      = .ok [] (.float (F64.finite ((123456 : ℚ) / 10 ^ 13))) ∧
    ((123456 : ℚ) / 10 ^ 13 ≠ (123456 : ℚ) / 10 ^ 16) := by
  constructor
  · have h123 : digitsVal 10 "123".toList = 123 := rfl
    have h456 : digitsVal 10 "456".toList = 456 := rfl
    have h10 : digitsVal 10 "10".toList = 10 := rfl
    have hlen : ("456".toList).length = 3 := rfl
    have hv : decToRat "123".toList (some "456".toList) (some (some '-', "10".toList))
        = (123456 : ℚ) / 10 ^ 13 := by
      simp only [decToRat, h123, h456, h10, hlen]
      norm_num
    calc parseLitNumberP "123.456e-10".toList
        = .ok [] (.float (F64.finite (decToRat "123".toList (some "456".toList)
            (some (some '-', "10".toList))))) := rfl
      _ = .ok [] (.float (F64.finite ((123456 : ℚ) / 10 ^ 13))) := by rw [hv]
  · norm_num

/-- C4 (amended: the expected value of `123.456e-10` is `1.23456e-8`, i.e.
`123456/10^13`, matching the source's own test `0.0000000123456`; the spec's
`1.23456e-11` is off by three orders of magnitude): a radix-prefixed literal
(`0b`/`0o`/`0x`) yields an `Int` whenever it yields a result; a decimal
literal with neither fraction nor exponent yields an `Int` of its digits; a
fraction or exponent makes it a `Float`; and the four concrete samples
evaluate as listed. -/
theorem c4_numeric_result_type :
    (∀ t rest seg, parseNumericP ('0' :: 'b' :: t) = .ok rest seg → ∃ i, seg = Eson.int i) ∧
    (∀ t rest seg, parseNumericP ('0' :: 'o' :: t) = .ok rest seg → ∃ i, seg = Eson.int i) ∧
    (∀ t rest seg, parseNumericP ('0' :: 'x' :: t) = .ok rest seg → ∃ i, seg = Eson.int i) ∧
    (∀ ds rest, DecRun ds →
      (∀ c, rest.head? = some c →
        (c.isDigit = false ∧ c ≠ '.' ∧ c ≠ 'e' ∧ c ≠ 'E' ∧ c ≠ 'b' ∧ c ≠ 'o' ∧ c ≠ 'x')) →
      digitsVal 10 ds ≤ I64MAX →
      parseNumericP (ds ++ rest) = .ok rest (.int (digitsVal 10 ds))) ∧
    (∀ ds fs rest, DecRun ds → DecRun fs →
      (∀ c, rest.head? = some c → (c.isDigit = false ∧ c ≠ 'e' ∧ c ≠ 'E')) →
      parseNumericP (ds ++ '.' :: (fs ++ rest))
        = .ok rest (.float (F64.finite (decToRat ds (some fs) Option.none)))) ∧
    parseLitNumberP "0b1010".toList = .ok [] (.int 10) ∧
    parseLitNumberP "0o777".toList = .ok [] (.int 511) ∧
    parseLitNumberP "0x123".toList = .ok [] (.int 291) ∧
    parseLitNumberP "123.456e-10".toList
      = .ok [] (.float (F64.finite ((123456 : ℚ) / 10 ^ 13))) ∧
    parseLitNumberP "1e2".toList = .ok [] (.float (F64.finite (100 : ℚ))) := by
  refine ⟨parseNumericP_0b_int, parseNumericP_0o_int, parseNumericP_0x_int,
    fun ds rest hds hrest hrange => parseNumericP_decimal_int hds hrest hrange,
    fun ds fs rest hds hfs hrest => parseNumericP_decimal_float hds hfs hrest,
    rfl, rfl, rfl, ?_, ?_⟩
  · have h123 : digitsVal 10 "123".toList = 123 := rfl
    have h456 : digitsVal 10 "456".toList = 456 := rfl
    have h10 : digitsVal 10 "10".toList = 10 := rfl
    have hlen : ("456".toList).length = 3 := rfl
    have hv : decToRat "123".toList (some "456".toList) (some (some '-', "10".toList))
        = (123456 : ℚ) / 10 ^ 13 := by
      simp only [decToRat, h123, h456, h10, hlen]
      norm_num
    calc parseLitNumberP "123.456e-10".toList
        = .ok [] (.float (F64.finite (decToRat "123".toList (some "456".toList)
            (some (some '-', "10".toList))))) := rfl
      _ = _ := by rw [hv]
  · have h1 : digitsVal 10 "1".toList = 1 := rfl
    have h2 : digitsVal 10 "2".toList = 2 := rfl
    have hv : decToRat "1".toList Option.none (some (Option.none, "2".toList))
        = (100 : ℚ) := by
      have hne : ¬(Option.none = some '-') := by decide
      simp only [decToRat, h1, h2, if_neg hne]
      norm_num
    calc parseLitNumberP "1e2".toList
        = .ok [] (.float (F64.finite (decToRat "1".toList Option.none
            (some (Option.none, "2".toList))))) := rfl
      _ = _ := by rw [hv]

/-- Witness for C4: the general decimal conjuncts applied at `42,`, `7.5]`
and the binary conjunct at `0b1010`. -/
theorem c4_numeric_result_type_witness :
    parseNumericP (['4', '2'] ++ [',']) = .ok [','] (.int (digitsVal 10 ['4', '2'])) ∧
    parseNumericP (['7'] ++ '.' :: (['5'] ++ [']']))
      = .ok [']'] (.float (F64.finite (decToRat ['7'] (some ['5']) Option.none))) ∧
    (∃ i, Eson.int 10 = Eson.int i) := by
  refine ⟨?_, ?_, ?_⟩
  · exact c4_numeric_result_type.2.2.2.1 ['4', '2'] [','] ⟨by decide, by decide⟩
      (by
        intro c hc
        injection hc with hc
        subst hc
        refine ⟨by decide, by decide, by decide, by decide, by decide, by decide, by decide⟩)
      (by decide)
  · exact c4_numeric_result_type.2.2.2.2.1 ['7'] ['5'] [']'] ⟨by decide, by decide⟩
      ⟨by decide, by decide⟩
      (by
        intro c hc
        injection hc with hc
        subst hc
        refine ⟨by decide, by decide, by decide⟩)
  · exact c4_numeric_result_type.1 "1010".toList [] (.int 10) rfl

/-- C5: key equality and hashing are defined on `name` alone — keys with
equal names but different (or absent) annotation lists compare equal and
feed identical bytes to the hasher, so inserting both into one map keeps a
single entry holding the last-written value; concretely, dictionary
literals with a repeated key name collapse to one entry with the last
value (the stored key being the first-inserted one, per `HashMap::insert`). -/
theorem c5_key_identity_is_name_only :
    (∀ k1 k2 : EKey, k1.name = k2.name →
      keyBeq k1 k2 = true ∧ keyHashInput k1 = keyHashInput k2 ∧
      ∀ v1 v2 : Eson, hashMapFromList [(k1, v1), (k2, v2)] = [(k1, v2)]) ∧
    parseDictRun "\x7b@a x: 1, x: 2\x7d".toList
      = .ok [] [(EKey.mk "x".toList (some [Anno.mk "a".toList Option.none]), Eson.int 2)] ∧
    parseDictRun "\x7bx: 1, x: 2\x7d".toList
      = .ok [] [(EKey.mk "x".toList (some []), Eson.int 2)] := by
  refine ⟨?_, rfl, rfl⟩
  intro k1 k2 h
  have hb : keyBeq k1 k2 = true := by simp [keyBeq, h]
  refine ⟨hb, by simp [keyHashInput, h], ?_⟩
  intro v1 v2
  simp [hashMapFromList, insertEntry, hb]

/-- Witness for C5: two keys named `a`, one unannotated and one annotated
with `@t`, compare equal, hash alike, and collapse to one entry with the
last value. -/
theorem c5_key_identity_is_name_only_witness :
    keyBeq (EKey.mk "a".toList Option.none)
        (EKey.mk "a".toList (some [Anno.mk "t".toList Option.none])) = true ∧
    keyHashInput (EKey.mk "a".toList Option.none)
      = keyHashInput (EKey.mk "a".toList (some [Anno.mk "t".toList Option.none])) ∧
    hashMapFromList
        [(EKey.mk "a".toList Option.none, Eson.int 1),
         (EKey.mk "a".toList (some [Anno.mk "t".toList Option.none]), Eson.int 2)]
      = [(EKey.mk "a".toList Option.none, Eson.int 2)] := by
  obtain ⟨h1, h2, h3⟩ := c5_key_identity_is_name_only.1
    (EKey.mk "a".toList Option.none)
    (EKey.mk "a".toList (some [Anno.mk "t".toList Option.none])) rfl
  exact ⟨h1, h2, h3 (Eson.int 1) (Eson.int 2)⟩

/-- C8: in a format string, whenever the escape alternatives fail and the
`${…}` splice parser succeeds at the current position, the fragment parser
yields the `Display` rendering of the parsed token chunk (not an evaluated
value); concretely `f"${name}"` parses to the string `Var(name)`. -/
theorem c8_splice_renders_token_chunk :
    (∀ (g : Gram) (s rest : List Char) (ch : List ExprToken),
      escapedCharP s = .err → escapedWsP s = .err →
      g.exprChunk s = .ok rest ch →
      fmtFragP g s = .ok rest (SFrag.valS (renderChunk ch))) ∧
    parseStringRun "f\"$\x7bname\x7d\"".toList = .ok [] "Var(name)".toList := by
  refine ⟨?_, rfl⟩
  intro g s rest ch h1 h2 h3
  simp [fmtFragP, altListP, altP, valueP, h1, h2, h3, pmap]

/-- Witness for C8: the splice fragment `${x}` renders as the chunk display
`Var(x)`. -/
theorem c8_splice_renders_token_chunk_witness :
    fmtFragP (gram 8) "$\x7bx\x7d".toList
      = .ok [] (SFrag.valS (renderChunk [ExprToken.var ['x']])) :=
  c8_splice_renders_token_chunk.1 (gram 8) "$\x7bx\x7d".toList [] [ExprToken.var ['x']]
    rfl rfl rfl

/-- `take_while_m_n` consumes exactly `ds` when `ds` is within the length
window, all of `ds` matches, and the next character does not. -/
theorem takeWhileMN_exact {m n : Nat} {p : Char → Bool} {ds rest : List Char}
    (hlen : ds.length ≤ n) (hm : m ≤ ds.length)
    (hall : ∀ c ∈ ds, p c = true) (hrest : ∀ c, rest.head? = some c → p c = false) :
    takeWhileMNP m n p (ds ++ rest) = .ok rest ds := by
  have htw : (ds ++ rest).takeWhile p = ds := by
    rw [takeWhile_app_all rest hall, takeWhile_head_fail hrest, List.append_nil]
  simp only [takeWhileMNP, htw, List.take_of_length_le hlen]
  rw [if_pos hm]
  simp [List.drop_left]

/-- `take_while_m_n(n, n, …)` consumes exactly the first `n` matching
characters, whatever follows. -/
theorem takeWhileMN_exact_len {n : Nat} {p : Char → Bool} {ds rest : List Char}
    (hlen : ds.length = n) (hall : ∀ c ∈ ds, p c = true) :
    takeWhileMNP n n p (ds ++ rest) = .ok rest ds := by
  have htw : (ds ++ rest).takeWhile p = ds ++ rest.takeWhile p :=
    takeWhile_app_all rest hall
  simp only [takeWhileMNP, htw, ← hlen, List.take_left]
  rw [if_pos (le_refl _)]
  simp [List.drop_left]

/-- C10: a unicode escape whose hex digits denote a surrogate (D800–DFFF) or
a value above 10FFFF is a recoverable parse failure of `parse_unicode` (in
both the braced 1–6-digit form and the exactly-4-digit form); the failure
propagates to `parse_escaped_char`, and hence the whole quoted-string
alternative fails — no replacement character, no panic. -/
theorem c10_invalid_unicode_escape_fails :
    (∀ ds rest : List Char, ds ≠ [] → ds.length ≤ 6 → (∀ c ∈ ds, isHexC c = true) →
      ((0xD800 ≤ digitsVal 16 ds ∧ digitsVal 16 ds ≤ 0xDFFF) ∨ 0x10FFFF < digitsVal 16 ds) →
      parseUnicodeP ('u' :: '\x7b' :: (ds ++ '\x7d' :: rest)) = .err) ∧
    (∀ ds rest : List Char, ds.length = 4 → (∀ c ∈ ds, isHexC c = true) →
      (0xD800 ≤ digitsVal 16 ds ∧ digitsVal 16 ds ≤ 0xDFFF) →
      parseUnicodeP ('u' :: (ds ++ rest)) = .err) ∧
    (∀ s : List Char, parseUnicodeP ('u' :: s) = .err →
      escapedCharP ('\\' :: 'u' :: s) = .err) ∧
    parseStringRun "\"\\u\x7bD800\x7d\"".toList = .err ∧
    parseStringRun "\"\\uD800\"".toList = .err := by
  refine ⟨?_, ?_, ?_, rfl, rfl⟩
  · intro ds rest hne hlen hhex hbad
    have hmn : takeWhileMNP 1 6 isHexC (ds ++ '\x7d' :: rest) = .ok ('\x7d' :: rest) ds :=
      takeWhileMN_exact hlen (Nat.one_le_iff_ne_zero.mpr
          (fun h0 => hne (List.eq_nil_of_length_eq_zero h0)))
        hhex (by
          intro c hc
          injection hc with hc
          rw [← hc]
          decide)
    have hcond : ¬(digitsVal 16 ds < 0xD800 ∨
        (0xDFFF < digitsVal 16 ds ∧ digitsVal 16 ds < 0x110000)) := by
      rcases hbad with ⟨hlo, hhi⟩ | hgt <;> omega
    simp [parseUnicodeP, precededP, bindP, altP, delimitedP, terminatedP, pmap, chP,
      hmn, charFromU32, hcond]
  · intro ds rest hlen hhex hbad
    have hne : ds ≠ [] := by
      intro h0
      rw [h0] at hlen
      exact absurd hlen (by decide)
    obtain ⟨d, ds', rfl⟩ : ∃ d ds', ds = d :: ds' := by
      cases ds with
      | nil => exact absurd rfl hne
      | cons d ds' => exact ⟨d, ds', rfl⟩
    have hd : isHexC d = true := hhex d (by simp)
    have hdne : d ≠ '\x7b' := by
      intro h
      rw [h] at hd
      exact absurd hd (by decide)
    have hbr : chP '\x7b' ((d :: ds') ++ rest) = .err := by
      simp [chP, hdne]
    have hmn : takeWhileMNP 4 4 isHexC ((d :: ds') ++ rest) = .ok rest (d :: ds') :=
      takeWhileMN_exact_len hlen hhex
    have hcond : ¬(digitsVal 16 (d :: ds') < 0xD800 ∨
        (0xDFFF < digitsVal 16 (d :: ds') ∧ digitsVal 16 (d :: ds') < 0x110000)) := by
      obtain ⟨hlo, hhi⟩ := hbad
      omega
    simp only [List.cons_append] at hbr hmn
    simp [parseUnicodeP, precededP, bindP, altP, delimitedP, terminatedP, pmap, chP,
      hdne, hbr, hmn, charFromU32, hcond]
  · intro s hu
    simp [escapedCharP, precededP, bindP, chP, altListP, altP, valueP, pmap, hu]

/-- Witness for C10: the surrogate D800 in both escape forms is rejected,
and the escaped-char parser rejects the same sequence. -/
theorem c10_invalid_unicode_escape_fails_witness :
    parseUnicodeP ('u' :: '\x7b' :: ("D800".toList ++ '\x7d' :: [])) = .err ∧
    parseUnicodeP ('u' :: ("D800".toList ++ ['"'])) = .err ∧
    escapedCharP ('\\' :: 'u' :: "D800".toList) = .err := by
  refine ⟨?_, ?_, ?_⟩
  · exact c10_invalid_unicode_escape_fails.1 "D800".toList [] (by decide) (by decide)
      (by decide) (Or.inl ⟨by decide, by decide⟩)
  · exact c10_invalid_unicode_escape_fails.2.1 "D800".toList ['"'] (by decide)
      (by decide) ⟨by decide, by decide⟩
  · exact c10_invalid_unicode_escape_fails.2.2.1 "D800".toList
      (c10_invalid_unicode_escape_fails.2.1 "D800".toList [] (by decide)
        (by decide) ⟨by decide, by decide⟩)
